import Mathlib

set_option maxHeartbeats 1600000
set_option maxRecDepth 4000
set_option linter.unusedVariables false

/-! Shallow embedding of the question segmentation and crop-region planning
engine of the sedu repository (files backend/app/workers/extraction/cropper.py
and backend/app/workers/extraction/pipeline.py), together with theorems that
check the written specification against that code.

Conventions used throughout:
* Python floats are modelled as exact rationals (ℚ), Python ints as ℤ (or ℕ
  for counts that are always non-negative), Python strings as Lean strings,
  processed as character lists.
* JSON-like dictionaries are modelled as structures whose fields are
  Option-valued: `none` models a missing key, a JSON null, or a value that the
  corresponding float()/int() conversion in the source would reject with an
  exception.
* Functions that the source implements with try/except around external calls
  take the outcome of those calls as explicit inputs (an environment record);
  a raised exception is an `Except.error`.
* Python's stable list.sort with a key function is modelled with
  List.insertionSort on a `key a ≤ key b` relation, which is also a stable
  sort and therefore produces the same list. -/

/-- Clamp a ratio into [0, 1]: Python max(0.0, min(1.0, x)). -/
def clamp01 (x : ℚ) : ℚ := max 0 (min 1 x)

/-- Python int() applied to a float: truncation toward zero. -/
def pyTrunc (q : ℚ) : ℤ := Int.tdiv q.num q.den

/-- Python floor division a // b on integers. -/
def pyFloorDiv (a b : ℤ) : ℤ := Int.fdiv a b

/-- Round-half-to-even of an exact rational to an integer, the tie-breaking
rule used by Python's round(). -/
def rhEven (x : ℚ) : ℤ :=
  let n := ⌊x⌋
  let f := x - (n : ℚ)
  if f < 1/2 then n else if (1 : ℚ)/2 < f then n + 1 else if n % 2 = 0 then n else n + 1

/-- Python round(x, 5): round to 5 decimal places, ties to even. -/
def pyRound5 (x : ℚ) : ℚ := ((rhEven (x * 100000) : ℤ) : ℚ) / 100000

/-- Python's regex class \s and str.strip() whitespace, restricted to the
ASCII whitespace characters (the documents handled here contain no exotic
Unicode whitespace). -/
def isPyWs (c : Char) : Bool :=
  c == ' ' || c == '\t' || c == '\n' || c == '\r' || c == '\x0b' || c == '\x0c'

/-- Numeric value of a list of decimal digit characters. -/
def digitsVal (ds : List Char) : ℕ :=
  ds.foldl (fun a c => a * 10 + (c.toNat - '0'.toNat)) 0

/-- Python str.strip(): drop leading and trailing whitespace. -/
def stripChars (l : List Char) : List Char :=
  ((l.dropWhile isPyWs).reverse.dropWhile isPyWs).reverse

/-- Normalization of newlines: replace \r\n by \n, then lone \r by \n (a
single left-to-right pass is equivalent to the two sequential str.replace
calls in the source). -/
def newlineNorm : List Char → List Char
  | [] => []
  | '\r' :: '\n' :: rest => '\n' :: newlineNorm rest
  | '\r' :: rest => '\n' :: newlineNorm rest
  | c :: rest => c :: newlineNorm rest

/-- DocumentExtractionPipeline._normalize_text: normalize newlines and strip. -/
def normalizeText (s : String) : String :=
  String.mk (stripChars (newlineNorm s.data))

/-- Character-list prefix test (Python str.startswith). -/
def hasPre : List Char → List Char → Bool
  | [], _ => true
  | _ :: _, [] => false
  | p :: ps, c :: cs => p == c && hasPre ps cs

/-- Python str.startswith on strings. -/
def pyStartsWith (s pre : String) : Bool := hasPre pre.data s.data

/-- Character-list suffix test (Python str.endswith). -/
def pyEndsWith (s suf : String) : Bool := hasPre suf.data.reverse s.data.reverse

/-! ## QuestionCropper: label parsing, reliability gate, anchor assignment -/

/-- QuestionCropper._parse_question_no: re.match of `\s*(\d{1,3})` anchored at
the start of the label; None and the empty string are falsy and yield None.
The regex skips leading whitespace, then takes at most three digits of the
leading digit run (with no constraint on what follows). -/
def parseQuestionNo (label : Option String) : Option ℕ :=
  match label with
  | none => none
  | some s =>
    if s.data.isEmpty then none
    else
      let l := s.data.dropWhile isPyWs
      let ds := (l.takeWhile Char.isDigit).take 3
      if ds.isEmpty then none else some (digitsVal ds)

/-- Deltas between consecutive parsed question numbers. -/
def labelDeltas (parsed : List ℕ) : List ℤ :=
  (parsed.zip parsed.tail).map fun p => (p.2 : ℤ) - (p.1 : ℤ)

/-- QuestionCropper._is_label_sequence_reliable: at least two labels parse to
numbers, all consecutive deltas are positive, and at least 60 percent of the
deltas are exactly 1. -/
def isLabelSequenceReliable (labels : List (Option String)) : Bool :=
  let parsed := labels.filterMap parseQuestionNo
  if parsed.length < 2 then false
  else
    let deltas := labelDeltas parsed
    if deltas.isEmpty then false
    else if deltas.any (fun d => decide (d ≤ 0)) then false
    else decide ((3 : ℚ)/5 ≤ (deltas.countP (fun d => d == 1) : ℚ) / (deltas.length : ℚ))

/-- One step of the cursor walk in QuestionCropper._pick_starts_for_questions:
advance through the unused suffix of the detected y list until a candidate
exceeds the previously picked value (always accepted when nothing was picked
yet); return the candidate and the remaining suffix. -/
def scanNext : List ℤ → Option ℤ → Option (ℤ × List ℤ)
  | [], _ => none
  | y :: rest, last =>
    if (match last with | none => true | some p => decide (p < y)) then some (y, rest)
    else scanNext rest last

/-- The by_qno table of _pick_starts_for_questions: for each question number,
the y positions of the detections carrying that number, in detection order. -/
def buildByQno (ordered : List (ℤ × ℤ)) (q : ℤ) : List ℤ :=
  (ordered.filter (fun p => p.2 == q)).map (·.1)

/-- Main loop of _pick_starts_for_questions. `byQ` is the current state of the
per-number queues (popleft modelled by replacing the queue with its tail),
`queue` the unused suffix of the full y list, `last` the last picked value. -/
def pickGo (byQ : ℤ → List ℤ) (queue : List ℤ) (last : Option ℤ) :
    List (Option String) → List ℤ
  | [] => []
  | l :: rest =>
    match parseQuestionNo l with
    | some q =>
      match byQ (q : ℤ) with
      | y :: qrest =>
        y :: pickGo (fun n => if n = (q : ℤ) then qrest else byQ n) queue (some y) rest
      | [] =>
        match scanNext queue last with
        | some (y, queue') => y :: pickGo byQ queue' (some y) rest
        | none => pickGo byQ queue last rest
    | none =>
      match scanNext queue last with
      | some (y, queue') => y :: pickGo byQ queue' (some y) rest
      | none => pickGo byQ queue last rest

/-- Lexicographic order on (y, question number) pairs: Python's sorted() on
tuples of two ints. -/
def pairLe (a b : ℤ × ℤ) : Prop := a.1 < b.1 ∨ (a.1 = b.1 ∧ a.2 ≤ b.2)

instance : DecidableRel pairLe := fun a b =>
  inferInstanceAs (Decidable (_ ∨ _))

instance : IsTotal (ℤ × ℤ) pairLe :=
  ⟨fun a b => by
    rcases lt_trichotomy a.1 b.1 with h | h | h
    · exact Or.inl (Or.inl h)
    · rcases le_total a.2 b.2 with h2 | h2
      · exact Or.inl (Or.inr ⟨h, h2⟩)
      · exact Or.inr (Or.inr ⟨h.symm, h2⟩)
    · exact Or.inr (Or.inl h)⟩

instance : IsTrans (ℤ × ℤ) pairLe :=
  ⟨fun a b c hab hbc => by
    rcases hab with h | ⟨he, h2⟩
    · rcases hbc with h' | ⟨he', _⟩
      · exact Or.inl (h.trans h')
      · exact Or.inl (he' ▸ h)
    · rcases hbc with h' | ⟨he', h2'⟩
      · exact Or.inl (he ▸ h')
      · exact Or.inr ⟨he.trans he', h2.trans h2'⟩⟩

/-- QuestionCropper._pick_starts_for_questions: clamp and sort the detected
(y, qno) pairs, then for each requested label pick the first unconsumed
detection with the same parsed number, else the next unused detection whose y
exceeds the previously picked value. -/
def pickStartsForQuestions (height : ℤ) (labels : List (Option String))
    (detected : List (ℤ × ℤ)) : List ℤ :=
  if detected.isEmpty then []
  else
    let ordered := List.insertionSort pairLe
      (detected.map (fun p => (max 0 (min (height - 1) p.1), p.2)))
    pickGo (buildByQno ordered) (ordered.map (·.1)) none labels

/-! ## QuestionCropper: the flat single-canvas hint tier -/

/-- One raw crop hint dictionary as supplied to the cropper. A `none` field
models a missing key, a JSON null, or a value float()/int() would reject. A
list entry that is not a dict at all is modelled as `none` at the list level. -/
structure Hint where
  page : Option ℤ
  top : Option ℚ
  bot : Option ℚ
  left : Option ℚ
  right : Option ℚ
deriving DecidableEq

/-- Loop body of QuestionCropper._ranges_from_hints, walking question indices
idx with the running lower bound last_end. Returns None to reject the whole
plan, exactly where the source returns None. The source's trailing
`len(ranges) == count` check is always true by construction and is omitted. -/
def rangesFromHintsGo (height : ℤ) (count : ℕ) (hints : List (Option Hint)) :
    ℕ → ℤ → ℕ → Option (List (ℤ × ℤ))
  | _, _, 0 => some []
  | idx, lastEnd, r + 1 =>
    match hints.getD idx none with
    | none => none
    | some hh =>
      match hh.top, hh.bot with
      | some t0, some b0 =>
        let t := clamp01 t0
        let b := clamp01 b0
        if b ≤ t then none
        else
          let y1 := max lastEnd (pyTrunc (t * (height : ℚ)))
          let y2a := pyTrunc (b * (height : ℚ))
          let y2b := if idx = count - 1 then max y2a height else y2a
          let y2 := if y2b ≤ y1 + 10 then min height (y1 + 30) else y2b
          if y2 ≤ y1 then none
          else ((y1, y2) :: ·) <$> rangesFromHintsGo height count hints (idx + 1) y2 r
      | _, _ => none

/-- QuestionCropper._ranges_from_hints: convert per-question top/bottom ratio
hints into non-overlapping (y1, y2) pixel ranges on one vertical canvas, or
None when the whole list must be rejected. The loop over range(count) is
driven by the remaining iteration count (third argument of the loop body). -/
def rangesFromHints (height : ℤ) (count : ℕ) (hints : List (Option Hint)) :
    Option (List (ℤ × ℤ)) :=
  if height ≤ 0 ∨ count = 0 ∨ hints.isEmpty then none
  else rangesFromHintsGo height count hints 0 0 count

/-! ## QuestionCropper: the per-page hint tier (_ranges_from_page_hints) -/

/-- One hint after the parsing loop of _ranges_from_page_hints: qidx is the
question index, page the 1-based page index, valid whether the clamped
top/bottom ratios form a usable span, hasX whether clamped left/right ratios
form a usable span (else left/right default to 0 and 1). -/
structure PHint where
  qidx : ℕ
  page : ℤ
  valid : Bool
  top : ℚ
  bot : ℚ
  left : ℚ
  right : ℚ
  hasX : Bool
deriving DecidableEq, Inhabited

/-- Parsing of one hint entry in _ranges_from_page_hints: a non-dict entry or
an unconvertible/out-of-range pageIndex rejects the whole plan (None);
unconvertible top/bottom or left/right ratios merely mark the hint invalid
resp. without x information. Validity is judged on the clamped ratios. -/
def parsePageHint (numPages : ℕ) (qidx : ℕ) (h : Option Hint) : Option PHint :=
  match h with
  | none => none
  | some hh =>
    match hh.page with
    | none => none
    | some p =>
      if p < 1 ∨ (numPages : ℤ) < p then none
      else
        let tbv : ℚ × ℚ × Bool :=
          match hh.top, hh.bot with
          | some t0, some b0 =>
            (clamp01 t0, clamp01 b0, decide (clamp01 t0 < clamp01 b0))
          | _, _ => (0, 0, false)
        let lrx : ℚ × ℚ × Bool :=
          match hh.left, hh.right with
          | some l0, some r0 =>
            (clamp01 l0, clamp01 r0, decide (clamp01 l0 < clamp01 r0))
          | _, _ => (0, 1, false)
        some ⟨qidx, p, tbv.2.2, tbv.1, tbv.2.1, lrx.1, lrx.2.1, lrx.2.2⟩

/-- The parsing loop over question indices i, i+1, ..., i+n-1. -/
def parsePageHintsGo (numPages : ℕ) (hints : List (Option Hint)) :
    ℕ → ℕ → Option (List PHint)
  | _, 0 => some []
  | i, n + 1 =>
    match parsePageHint numPages i (hints.getD i none) with
    | none => none
    | some ph => (ph :: ·) <$> parsePageHintsGo numPages hints (i + 1) n

/-- Column inferred for one parsed hint: left when x information is present
and the left ratio is under 0.4, right when x information is present
otherwise, full when there is no x information. -/
inductive Col | left | right | full
deriving DecidableEq

def colOf (it : PHint) : Col :=
  if it.hasX && decide (it.left < (2 : ℚ)/5) then Col.left
  else if it.hasX then Col.right
  else Col.full

/-- Reconciliation walk of one column: items sorted by top ratio; a valid
item whose span still fits after clamping its top to the previous kept bottom
is assigned (top, bottom) and advances the bound, other items stay
unresolved. Items carry their local index on the page. -/
def reconGo (prevEnd : ℚ) : List (ℕ × PHint) → List (ℕ × (ℚ × ℚ))
  | [] => []
  | (i, it) :: rest =>
    if it.valid then
      let t := max prevEnd it.top
      if it.bot ≤ t then reconGo prevEnd rest
      else (i, (t, it.bot)) :: reconGo it.bot rest
    else reconGo prevEnd rest

/-- Sort relation used inside one column: compare the top ratios (Python's
stable sort by key). -/
def hintLeTop (a b : ℕ × PHint) : Prop := a.2.top ≤ b.2.top

instance : DecidableRel hintLeTop := fun a b =>
  inferInstanceAs (Decidable (_ ≤ _))

instance : IsTotal (ℕ × PHint) hintLeTop := ⟨fun a b => le_total a.2.top b.2.top⟩

instance : IsTrans (ℕ × PHint) hintLeTop := ⟨fun _ _ _ => le_trans⟩

/-- Per-column reconciled assignments for one page's local hint list. The
source iterates the three column groups of a dict; since the groups write to
disjoint local indices the iteration order is immaterial and the three runs
are simply concatenated here. -/
def colAssign (locals : List PHint) : List (ℕ × (ℚ × ℚ)) :=
  let wi := locals.enum
  let run := fun c =>
    reconGo 0 (List.insertionSort hintLeTop (wi.filter (fun p => colOf p.2 == c)))
  run Col.full ++ run Col.left ++ run Col.right

/-- The ratios array after reconciliation: entry i is the assigned span of
local index i when its column kept it, else None. -/
def ratiosInit (locals : List PHint) : List (Option (ℚ × ℚ)) :=
  (List.range locals.length).map
    (fun i => ((colAssign locals).find? (fun pr => pr.1 == i)).map (·.2))

/-- Linear interpolation filling one run of g unresolved slots between the
resolved bounds left and right (page edges when absent); when the bounds are
inverted the right bound is pushed to left + 0.08 per missing slot, capped
at 1, and the span floor of 0.001 is applied. -/
def fillRun (left : ℚ) (g : ℕ) (right : ℚ) : List (ℚ × ℚ) :=
  let r1 := if right ≤ left then min 1 (left + (2 : ℚ)/25 * ((max 1 g : ℕ) : ℚ)) else right
  let span := max ((1 : ℚ)/1000) (r1 - left)
  let step := span / ((max 1 g : ℕ) : ℚ)
  (List.range g).map fun (k : ℕ) => (left + step * (k : ℚ), left + step * ((k : ℚ) + 1))

/-- The gap-filling cursor walk over the ratios array: resolved entries pass
through tagged true (source "gemini"), runs of unresolved entries are filled
by fillRun and tagged false (source "fallback"). The walk advances one entry
at a time; after emitting a filled run of length g the next g - 1 entries
(the rest of the unresolved run) are skipped via the counter. -/
def fillGapsGo (left : ℚ) : List (Option (ℚ × ℚ)) → ℕ → List ((ℚ × ℚ) × Bool)
  | [], _ => []
  | _ :: rest, n + 1 => fillGapsGo left rest n
  | some p :: rest, 0 => (p, true) :: fillGapsGo p.2 rest 0
  | none :: rest, 0 =>
    let t := rest.takeWhile (fun o => o.isNone)
    let g := 1 + t.length
    let right := match rest.drop t.length with
      | some p :: _ => p.1
      | _ => 1
    (fillRun left g right).map (fun p => (p, false)) ++ fillGapsGo right rest (g - 1)

/-- One planned pixel region: y1/y2/x1/x2 in page pixels plus the provenance
tag ("gemini" or "fallback"). -/
structure Region where
  y1 : ℤ
  y2 : ℤ
  x1 : ℤ
  x2 : ℤ
  src : String
deriving DecidableEq

/-- Pixel conversion of one span for one hint: clamp y1 into the page, force
y2 at least 12 pixels below y1 and inside the page, then enforce the 60 pixel
minimum height by shifting y1 up half the deficit and clamping y1 + 60 to the
page height; x from the hint's left/right ratios when present (at least 12
pixels wide), else the full page width. -/
def toPixel (ph pw : ℤ) (tb : ℚ × ℚ) (it : PHint) (gem : Bool) : Region :=
  let y1a := max 0 (min (ph - 1) (pyTrunc (tb.1 * (ph : ℚ))))
  let y2a := max (y1a + 12) (min ph (pyTrunc (tb.2 * (ph : ℚ))))
  let yy : ℤ × ℤ :=
    if y2a - y1a < 60 then
      let ex := pyFloorDiv (60 - (y2a - y1a)) 2
      let y1b := max 0 (y1a - ex)
      (y1b, min ph (y1b + 60))
    else (y1a, y2a)
  let xx : ℤ × ℤ :=
    if it.hasX then
      let x1a := max 0 (min (pw - 1) (pyTrunc (it.left * (pw : ℚ))))
      (x1a, max (x1a + 12) (min pw (pyTrunc (it.right * (pw : ℚ)))))
    else (0, pw)
  ⟨yy.1, yy.2, xx.1, xx.2, if gem then "gemini" else "fallback"⟩

/-- Processing of one page: reconcile columns, fill gaps, convert each local
hint's span to pixels; results are keyed by the hint's question index. -/
def processPage (ph pw : ℤ) (locals : List PHint) : List (ℕ × Region) :=
  let filled := fillGapsGo 0 (ratiosInit locals) 0
  (locals.zip filled).map (fun p => (p.1.qidx, toPixel ph pw p.2.1 p.1 p.2.2))

/-- The page loop of _ranges_from_page_hints: process each page's local
hints, collecting regions keyed by question index (the assigned dict as an
association list). A page's pixel dimensions are floored at 1; missing widths
default to a list of zeros (so width 1 after flooring). -/
def pageAssignments (pageHeights pageWidths : List ℤ) (parsed : List PHint) :
    List (ℕ × Region) :=
  let widths := if pageWidths.isEmpty then List.replicate pageHeights.length (0 : ℤ)
                else pageWidths
  (List.range pageHeights.length).flatMap (fun p0 =>
    let locals := parsed.filter (fun it => it.page == ((p0 : ℤ) + 1))
    if locals.isEmpty then []
    else processPage (max 1 (pageHeights.getD p0 0)) (max 1 (widths.getD p0 0)) locals)

/-- The final collection step of _ranges_from_page_hints: the plan succeeds
only when every question index was assigned (the source checks
len(assigned) == question_count, which is equivalent because the keys are
exactly the distinct parsed question indices); each planned tuple carries the
zero-based page index of its question's hint. -/
def collectPlanned (qc : ℕ) (parsed : List PHint) (assigned : List (ℕ × Region)) :
    Option (List (ℤ × Region)) :=
  if (List.range qc).all (fun q => (assigned.find? (fun pr => pr.1 == q)).isSome) then
    some ((List.range qc).filterMap (fun q =>
      (assigned.find? (fun pr => pr.1 == q)).map (fun pr =>
        ((parsed.getD q default).page - 1, pr.2))))
  else none

/-- QuestionCropper._ranges_from_page_hints. Returns the planned regions as
(zero-based page index, region) pairs in question order, [] when the question
count is not positive, and None whenever the source rejects the hint plan. -/
def rangesFromPageHints (pageHeights pageWidths : List ℤ) (qc : ℕ)
    (hints : List (Option Hint)) : Option (List (ℤ × Region)) :=
  if qc = 0 then some []
  else if pageHeights.isEmpty ∨ hints.isEmpty ∨ hints.length < qc then none
  else
    match parsePageHintsGo pageHeights.length hints 0 qc with
    | none => none
    | some parsed => collectPlanned qc parsed (pageAssignments pageHeights pageWidths parsed)

/-- Unfolding lemma for a run whose guards pass and whose parse succeeds. -/
theorem rangesFromPageHints_some {pageHeights pageWidths : List ℤ} {qc : ℕ}
    {hints : List (Option Hint)} {parsed : List PHint}
    (h0 : qc ≠ 0) (h1 : pageHeights.isEmpty = false) (h2 : hints.isEmpty = false)
    (h3 : ¬ hints.length < qc)
    (hp : parsePageHintsGo pageHeights.length hints 0 qc = some parsed) :
    rangesFromPageHints pageHeights pageWidths qc hints =
      collectPlanned qc parsed (pageAssignments pageHeights pageWidths parsed) := by
  rw [rangesFromPageHints, if_neg h0, if_neg (by simp [h1, h2, h3]), hp]

/-! ## DocumentExtractionPipeline: question splitting (_split_questions)

The regex `(?m)^\s*(\d{1,3})\s*(?:[.)]|번)\s+` is embedded as an explicit
matcher with Python's finditer semantics: matches are found left to right,
are non-overlapping (the scan resumes at the end of the previous match), and
can only start at a line start because of the ^ anchor. Greedy \s* and \s+
runs are maximal; backtracking inside the digit group cannot create a match
that the maximal-run reading misses (a shorter digit run is followed by a
digit, which is neither a delimiter nor whitespace), so the matcher below is
exact. -/

/-- Try to match the question-number pattern at the current position, which
the caller guarantees to be a line start. Returns the captured digits and the
total number of characters the match consumes. -/
def matchQHere (l : List Char) : Option (List Char × ℕ) :=
  let ws1 := l.takeWhile isPyWs
  let r1 := l.drop ws1.length
  let ds := r1.takeWhile Char.isDigit
  if ds.isEmpty || decide (3 < ds.length) then none
  else
    let r2 := r1.drop ds.length
    let ws2 := r2.takeWhile isPyWs
    let r3 := r2.drop ws2.length
    match r3 with
    | [] => none
    | c :: r4 =>
      if c == '.' || c == ')' || c == '번' then
        let ws3 := r4.takeWhile isPyWs
        if ws3.isEmpty then none
        else some (ds, ws1.length + ds.length + ws2.length + 1 + ws3.length)
      else none

/-- Scan for all matches of the question-number pattern with finditer
semantics, character by character: `lineStart` is whether the current
position follows a newline (or is position 0), `pos` the current offset, and
`skip` the number of characters still covered by the previous match (no new
match may start inside it). The matches are returned as (start offset,
captured digits). -/
def scanQGo : List Char → Bool → ℕ → ℕ → List (ℕ × List Char)
  | [], _, _, _ => []
  | c :: rest, _, pos, n + 1 => scanQGo rest (c == '\n') (pos + 1) n
  | c :: rest, lineStart, pos, 0 =>
    if lineStart then
      match matchQHere (c :: rest) with
      | some (ds, len) => (pos, ds) :: scanQGo rest (c == '\n') (pos + 1) (len - 1)
      | none => scanQGo rest (c == '\n') (pos + 1) 0
    else scanQGo rest (c == '\n') (pos + 1) 0

/-- All question-number candidates of a normalized text. -/
def scanQuestionNos (t : List Char) : List (ℕ × List Char) := scanQGo t true 0 0

/-- The forward-monotonic filter of _split_questions: keep a candidate only
when its numeric value strictly exceeds the last kept value. -/
def keepIncreasing (last : ℕ) : List (ℕ × List Char) → List (ℕ × List Char)
  | [] => []
  | (p, ds) :: rest =>
    if last < digitsVal ds then (p, ds) :: keepIncreasing (digitsVal ds) rest
    else keepIncreasing last rest

/-- Python text[s:e].strip() on a character list. -/
def sliceStrip (t : List Char) (s e : ℕ) : List Char :=
  stripChars ((t.drop s).take (e - s))

/-- Chunk construction of _split_questions: each kept match opens a chunk
running to the next kept match (or the end of the text); chunks that strip to
nothing are dropped. -/
def chunksOf (t : List Char) : List (ℕ × List Char) → List (Option String × String)
  | [] => []
  | (p, ds) :: rest =>
    let e := match rest.head? with
      | some q => q.1
      | none => t.length
    let chunk := sliceStrip t p e
    (if chunk.isEmpty then [] else [(some (String.mk ds), String.mk chunk)])
      ++ chunksOf t rest

/-- The final guard of _split_questions: `items or [(None, text)]`. -/
def chunksOr (t : List Char) (kept : List (ℕ × List Char)) : List (Option String × String) :=
  if (chunksOf t kept).isEmpty then [(none, String.mk t)] else chunksOf t kept

/-- DocumentExtractionPipeline._split_questions: normalize, find the
question-number candidates, keep the forward-monotonic ones, cut the text at
the kept starts. Blank input gives [], no candidates (or no surviving chunk)
gives the whole text as one unlabeled chunk. -/
def splitQuestions (raw : String) : List (Option String × String) :=
  let t := stripChars (newlineNorm raw.data)
  if t.isEmpty then []
  else
    match scanQuestionNos t with
    | [] => [(none, String.mk t)]
    | c :: rest => chunksOr t (c :: keepIncreasing (digitsVal c.2) rest)

/-! ## DocumentExtractionPipeline: choice extraction (_build_structure)

The regex `(?m)^\s*(?:[①-⑤]|[ㄱ-ㅎ]|[A-Ea-e]|[1-5])(?:[.)]|\s)\s*(.+)$` is
embedded the same way. One subtlety of `\s*(.+)$` is faithfully reproduced:
the \s* run after the delimiter is maximal; when it reaches the end of the
text, backtracking hands back whitespace characters until (.+) can match at
a non-newline character, so the captured group becomes a single whitespace
character (which strips to nothing and is discarded by the caller). -/

def isChoiceSym (c : Char) : Bool :=
  ('①' ≤ c && c ≤ '⑤') || ('ㄱ' ≤ c && c ≤ 'ㅎ') || ('A' ≤ c && c ≤ 'E') ||
  ('a' ≤ c && c ≤ 'e') || ('1' ≤ c && c ≤ '5')

/-- Try to match the choice pattern at a line start. Returns the captured
group and the total number of characters the match consumes. -/
def matchCHere (l : List Char) : Option (List Char × ℕ) :=
  let ws1 := l.takeWhile isPyWs
  let r1 := l.drop ws1.length
  match r1 with
  | [] => none
  | sym :: r2 =>
    if isChoiceSym sym then
      match r2 with
      | [] => none
      | d :: r3 =>
        if d == '.' || d == ')' || isPyWs d then
          let run := r3.takeWhile isPyWs
          let r4 := r3.drop run.length
          match r4 with
          | _ :: _ =>
            let grp := r4.takeWhile (fun c => c != '\n')
            some (grp, ws1.length + 2 + run.length + grp.length)
          | [] =>
            let run' := (run.reverse.dropWhile (fun c => c == '\n')).reverse
            match run'.getLast? with
            | some cl => some ([cl], ws1.length + 2 + run'.length)
            | none => none
        else none
    else none

/-- Scan for all matches of the choice pattern with finditer semantics. The
walk is character by character: `lineStart` is whether the current position
follows a newline (or is position 0) and `skip` is the number of characters
still covered by the previous match (no new match may start inside it). When
a match of length n is found at the current character, the captured group is
emitted and the following n - 1 characters are skipped. -/
def scanCGo : List Char → Bool → ℕ → List (List Char)
  | [], _, _ => []
  | c :: rest, _, n + 1 => scanCGo rest (c == '\n') n
  | c :: rest, lineStart, 0 =>
    if lineStart then
      match matchCHere (c :: rest) with
      | some (grp, len) => grp :: scanCGo rest (c == '\n') (len - 1)
      | none => scanCGo rest (c == '\n') 0
    else scanCGo rest (c == '\n') 0

/-- All captured choice groups of one question text, in order. -/
def scanChoices (l : List Char) : List (List Char) := scanCGo l true 0

/-- One extracted answer choice. -/
structure Choice where
  label : String
  text : String
deriving DecidableEq

/-- Choice construction of _build_structure: enumerate ALL matches (the index
i counts every match), strip each captured group, and keep only those whose
stripped text is non-empty, labelling them str(i + 1) by position. -/
def mkChoices (i : ℕ) : List (List Char) → List Choice
  | [] => []
  | g :: rest =>
    (if (stripChars g).isEmpty then []
     else [⟨Nat.repr (i + 1), String.mk (stripChars g)⟩])
      ++ mkChoices (i + 1) rest

/-- The parsed_v1 payload built by DocumentExtractionPipeline._build_structure
(the source wraps it in a single-key dict under "parsed_v1"): the full text as
the stem plus the extracted choices. -/
structure ParsedV1 where
  stem : String
  choices : List Choice
deriving DecidableEq

def buildStructure (questionText : String) : ParsedV1 :=
  ⟨questionText, mkChoices 0 (scanChoices questionText.data)⟩

/-! ## DocumentExtractionPipeline: question records and crop-hint post-processing -/

/-- The cropHint dict attached to a question's metadata by the gemini path:
pageIndex plus vertical ratios, and optionally a left/right ratio pair. The
source builds this dict always carrying topRatio and bottomRatio. -/
structure CropHint where
  page : ℕ
  top : ℚ
  bot : ℚ
  lr : Option (ℚ × ℚ)
deriving DecidableEq

/-- Question metadata. The hybrid path's metadata dict carries fewer keys
than the gemini path's; a missing string key is modelled as "" (both are
falsy in the `or` chains that read them back), a missing pageIndex as 0, a
missing cropHint as none, a missing llmRefined flag as false. -/
structure Meta where
  subject : String
  unit : String
  difficulty : String
  questionType : String
  answerFormat : String
  source : String
  engine : String
  sourceType : String
  pageIdx : ℕ
  llmRefined : Bool
  llmModel : String
  cropHint : Option CropHint
deriving DecidableEq, Inhabited

/-- One ExtractedQuestion record. `parsedV1` is the payload the source stores
under structure["parsed_v1"]. -/
structure ExtractedQuestion where
  order : ℤ
  label : Option String
  text : String
  conf : ℚ
  meta : Meta
  parsedV1 : ParsedV1
deriving DecidableEq

instance : Inhabited ExtractedQuestion :=
  ⟨⟨0, none, "", 0, default, ⟨"", []⟩⟩⟩

/-- Column of a question for crop-hint post-processing
(DocumentExtractionPipeline._column_key): full without a hint or without a
leftRatio, else left when leftRatio < 0.4, else right. -/
def columnKey (q : ExtractedQuestion) : String :=
  match q.meta.cropHint with
  | none => "full"
  | some h =>
    match h.lr with
    | none => "full"
    | some lr => if lr.1 < (2 : ℚ)/5 then "left" else "right"

/-- Sort key used inside one column: the hint's topRatio, 0 without a hint. -/
def topKey (q : ExtractedQuestion) : ℚ :=
  match q.meta.cropHint with
  | none => 0
  | some h => h.top

/-- The expansion step of _postprocess_crop_hints: a hint whose height is
strictly between 0 and 0.05 is replaced by the 0.05-high window centred at
its midpoint, clamped into [0, 1], both bounds rounded to 5 decimals. -/
def expandHint (q : ExtractedQuestion) : ExtractedQuestion :=
  match q.meta.cropHint with
  | none => q
  | some h =>
    if 0 < h.bot - h.top ∧ h.bot - h.top < 1/20 then
      let mid := (h.top + h.bot) / 2
      let h' : CropHint :=
        { h with top := pyRound5 (max 0 (mid - 1/40)), bot := pyRound5 (min 1 (mid + 1/40)) }
      { q with meta := { q.meta with cropHint := some h' } }
    else q

def topLe (a b : ExtractedQuestion) : Prop := topKey a ≤ topKey b

instance : DecidableRel topLe := fun a b => inferInstanceAs (Decidable (_ ≤ _))

instance : IsTotal ExtractedQuestion topLe := ⟨fun a b => le_total (topKey a) (topKey b)⟩

instance : IsTrans ExtractedQuestion topLe := ⟨fun _ _ _ => le_trans⟩

/-- Stable sort of one column group by topRatio. -/
def sortTop (g : List ExtractedQuestion) : List ExtractedQuestion :=
  List.insertionSort topLe g

/-- The overlap walk of _postprocess_crop_hints over one sorted group: for
each adjacent pair with both hints present whose spans overlap, both the
first's bottomRatio and the second's topRatio are set to the rounded midpoint
of the overlap; the walk then continues with the updated second element. -/
def resolveGo (prev : ExtractedQuestion) : List ExtractedQuestion → List ExtractedQuestion
  | [] => [prev]
  | cur :: rest =>
    match prev.meta.cropHint, cur.meta.cropHint with
    | some ph, some ch =>
      if ch.top < ph.bot then
        let m := pyRound5 ((ph.bot + ch.top) / 2)
        { prev with meta := { prev.meta with cropHint := some { ph with bot := m } } } ::
          resolveGo { cur with meta := { cur.meta with cropHint := some { ch with top := m } } } rest
      else prev :: resolveGo cur rest
    | _, _ => prev :: resolveGo cur rest

def resolveOverlaps : List ExtractedQuestion → List ExtractedQuestion
  | [] => []
  | q :: rest => resolveGo q rest

/-- Reassignment of order_index 1..N after reordering. -/
def reindexFrom (i : ℤ) : List ExtractedQuestion → List ExtractedQuestion
  | [] => []
  | q :: rest => { q with order := i } :: reindexFrom (i + 1) rest

/-- DocumentExtractionPipeline._postprocess_crop_hints: expand narrow hints,
group by column (in the fixed order full, left, right), sort each group by
topRatio, resolve overlaps inside each group at the rounded midpoint, then
concatenate the groups and renumber order_index from 1. -/
def postprocessCropHints (qs : List ExtractedQuestion) : List ExtractedQuestion :=
  if qs.isEmpty then qs
  else
    let ex := qs.map expandHint
    reindexFrom 1
      (resolveOverlaps (sortTop (ex.filter (fun q => columnKey q == "full"))) ++
       resolveOverlaps (sortTop (ex.filter (fun q => columnKey q == "left"))) ++
       resolveOverlaps (sortTop (ex.filter (fun q => columnKey q == "right"))))

/-! ## DocumentExtractionPipeline: the gemini_full multimodal path

The LLM and rendering calls are external; their outcomes per page are inputs
(GeminiEnv). An exception raised by a call is an Except.error carrying its
message. -/

/-- Static pipeline configuration: which backends exist and how they answer
capability probes. `provider` and `ocrProvider` are the already-lowercased
provider_name strings, `llmModelName` the resolved value of
`self.llm_model or llm.model_name`. -/
structure PipeCfg where
  llmPresent : Bool
  llmEnabled : Bool
  provider : String
  hasMedia : Bool
  ocrProvider : String
  llmModelName : String
  mode : String

/-- DocumentExtractionPipeline._can_use_llm. -/
def canUseLLM (c : PipeCfg) : Bool :=
  c.llmEnabled && c.llmPresent && (c.provider != "mock")

/-- DocumentExtractionPipeline._can_use_multimodal_llm. -/
def canUseMultimodalLLM (c : PipeCfg) : Bool :=
  canUseLLM c && c.llmPresent && c.hasMedia

/-- ASCII lowercase (Python str.lower on the ASCII range used by MIME types
and file names). -/
def lowerChar (c : Char) : Char :=
  if 'A' ≤ c && c ≤ 'Z' then Char.ofNat (c.toNat + 32) else c

def strLower (s : String) : String := String.mk (s.data.map lowerChar)

/-- Python "or" chain on possibly-missing strings: the first truthy value,
else the default. -/
def pyOrStr (v : Option String) (d : String) : String :=
  match v with
  | none => d
  | some s => if s.data.isEmpty then d else s

/-- DocumentExtractionPipeline._to_confidence: parse then clamp, clamping the
default when the value does not parse. -/
def toConfidence (v : Option ℚ) (d : ℚ) : ℚ :=
  match v with
  | none => clamp01 d
  | some p => clamp01 p

/-- DocumentExtractionPipeline._media_source_type. -/
def mediaSourceType (ct fn : Option String) : String :=
  let lowerName := strLower (fn.getD "")
  let mime := strLower (ct.getD "")
  if pyStartsWith mime "application/pdf" || pyEndsWith lowerName ".pdf" then "pdf"
  else if pyStartsWith mime "image/" || pyEndsWith lowerName ".png" ||
          pyEndsWith lowerName ".jpg" || pyEndsWith lowerName ".jpeg" then "image"
  else "binary"

/-- One entry of the structured media response's questions list (when that
entry is a dict). Fields are none when the key is missing, null, or of a type
the corresponding int()/float() conversion would reject; `text` is already
the string coercion str(item.get("text") or ""). -/
structure JsonItem where
  orderIdx : Option ℤ
  numLabel : Option String
  text : String
  conf : Option ℚ
  subject : Option String
  unit : Option String
  difficulty : Option String
  questionType : Option String
  answerFormat : Option String
  cropTop : Option ℚ
  cropBot : Option ℚ
  cropLeft : Option ℚ
  cropRight : Option ℚ

/-- Outcomes of the external calls used by the gemini_full path, indexed by
the 1-based page number. `structuredData` is the generate_structured_from_media
outcome (ok none models a non-dict response or a questions field that is not a
list), `rawData` the raw-text fallback call's rawText field, `pageCount` how
many pages _render_pages produced for a PDF payload, `imagePrepared` whether
_prepare_image_media_for_llm succeeded, `encodePage` the
_encode_compact_image outcome per PDF page. -/
structure GeminiEnv where
  structuredData : ℕ → Except String (Option (List (Option JsonItem)))
  rawData : ℕ → Except String String
  pageCount : ℕ
  imagePrepared : Bool
  encodePage : ℕ → Except String Unit

/-- Join a list of strings with a separator (Python str.join). -/
def joinWith (sep : String) : List String → String
  | [] => ""
  | [s] => s
  | s :: rest => s ++ sep ++ joinWith sep rest

/-- Question records built from the raw-text fallback's split chunks
(enumerate start 1). -/
def rawTextQs (cfg : PipeCfg) (st : String) (page : ℕ) :
    ℕ → List (Option String × String) → List ExtractedQuestion
  | _, [] => []
  | idx, (lbl, txt) :: rest =>
    let confv := max ((11 : ℚ)/20) ((17 : ℚ)/20 - (1 : ℚ)/50 * ((idx : ℚ) - 1))
    let meta : Meta :=
      { subject := "unknown", unit := "unknown", difficulty := "unknown",
        questionType := "unknown", answerFormat := "unknown", source := "uploaded",
        engine := "gemini_vision_text", sourceType := st, pageIdx := page,
        llmRefined := true, llmModel := cfg.llmModelName, cropHint := none }
    ⟨(idx : ℤ), some (pyOrStr lbl (toString idx)), txt, confv, meta, buildStructure txt⟩ ::
      rawTextQs cfg st page (idx + 1) rest

/-- DocumentExtractionPipeline._extract_with_gemini_raw_text. -/
def geminiRawText (cfg : PipeCfg) (env : GeminiEnv) (st : String) (page : ℕ) :
    Except String (List ExtractedQuestion × String) :=
  if !cfg.llmPresent then .error "Gemini raw-text fallback is unavailable."
  else
    match env.rawData page with
    | .error e => .error ("Gemini raw-text fallback failed: " ++ e)
    | .ok s =>
      let rawText := normalizeText s
      if rawText.data.isEmpty then
        .error "Gemini multimodal extraction returned empty questions and empty rawText."
      else
        let split0 := splitQuestions rawText
        let split := if split0.isEmpty then [(none, rawText)] else split0
        .ok (rawTextQs cfg st page 1 split, rawText)

/-- Crop-hint parsing for one structured item: both vertical ratios must
parse and be clamped into a positive span; the horizontal pair is attached
only when it also parses into a positive span; all four are rounded to 5
decimals. -/
def itemCropHint (page : ℕ) (it : JsonItem) : Option CropHint :=
  match it.cropTop, it.cropBot with
  | some t0, some b0 =>
    let t := clamp01 t0
    let b := clamp01 b0
    if t < b then
      let lr : Option (ℚ × ℚ) :=
        match it.cropLeft, it.cropRight with
        | some l0, some r0 =>
          let l := clamp01 l0
          let r := clamp01 r0
          if l < r then some (pyRound5 l, pyRound5 r) else none
        | _, _ => none
      some ⟨page, pyRound5 t, pyRound5 b, lr⟩
    else none
  | _, _ => none

/-- One question record from one structured item (skipped when the
normalized text is empty). -/
def geminiItemQ (cfg : PipeCfg) (st : String) (page : ℕ) (idx : ℕ) (it : JsonItem) :
    Option ExtractedQuestion :=
  let text := normalizeText it.text
  if text.data.isEmpty then none
  else
    let o0 := it.orderIdx.getD (idx : ℤ)
    let o := if o0 ≤ 0 then (idx : ℤ) else o0
    let label := pyOrStr it.numLabel (toString o)
    let confv := toConfidence it.conf ((9 : ℚ)/10)
    let meta : Meta :=
      { subject := pyOrStr it.subject "unknown", unit := pyOrStr it.unit "unknown",
        difficulty := pyOrStr it.difficulty "unknown",
        questionType := pyOrStr it.questionType "unknown",
        answerFormat := pyOrStr it.answerFormat "unknown", source := "uploaded",
        engine := "gemini_vision", sourceType := st, pageIdx := page,
        llmRefined := true, llmModel := cfg.llmModelName,
        cropHint := itemCropHint page it }
    some ⟨o, some label, text, confv, meta, buildStructure text⟩

/-- The enumerate-start-1 loop over structured items: skip non-dict entries
and entries with empty text; collect the questions and the raw chunks. -/
def geminiItems (cfg : PipeCfg) (st : String) (page : ℕ) :
    ℕ → List (Option JsonItem) → List ExtractedQuestion × List String
  | _, [] => ([], [])
  | idx, it :: rest =>
    let tailr := geminiItems cfg st page (idx + 1) rest
    match it with
    | none => tailr
    | some item =>
      match geminiItemQ cfg st page idx item with
      | none => tailr
      | some q => (q :: tailr.1, (normalizeText item.text) :: tailr.2)

/-- DocumentExtractionPipeline._extract_with_gemini_media: structured call
first; on exception fall back to the raw-text call, combining both messages
on a second failure; on an empty or non-list questions payload call the
raw-text path directly (its exceptions propagate); with items present but
none yielding text, fail; otherwise post-process the crop hints. -/
def geminiMedia (cfg : PipeCfg) (env : GeminiEnv) (st : String) (page : ℕ) :
    Except String (List ExtractedQuestion × String) :=
  if !cfg.llmPresent then .error "gemini_full mode requires a multimodal LLM backend."
  else
    match env.structuredData page with
    | .error e =>
      match geminiRawText cfg env st page with
      | .error re =>
        .error ("structured extraction failed: " ++ e ++ "; raw-text fallback failed: " ++ re)
      | .ok r => .ok r
    | .ok dataOpt =>
      let items := dataOpt.getD []
      if items.isEmpty then geminiRawText cfg env st page
      else
        let built := geminiItems cfg st page 1 items
        if built.1.isEmpty then
          .error "structured extraction returned no valid question payloads."
        else .ok (postprocessCropHints built.1, normalizeText (joinWith "\n\n" built.2))

/-- Boolean lexicographic comparison of character lists (Python string
comparison by code point). -/
def strLeB : List Char → List Char → Bool
  | [], _ => true
  | _ :: _, [] => false
  | x :: xs, y :: ys => if x == y then strLeB xs ys else decide (x < y)

/-- str(q.number_label or "") as a character list. -/
def labelKey (q : ExtractedQuestion) : List Char :=
  (match q.label with | none => "" | some s => s).data

/-- Sort key of the final gemini_full ordering: (pageIndex, order_index,
number label string), lexicographically. -/
def gfLe (a b : ExtractedQuestion) : Prop :=
  a.meta.pageIdx < b.meta.pageIdx ∨
    (a.meta.pageIdx = b.meta.pageIdx ∧
      (a.order < b.order ∨ (a.order = b.order ∧ strLeB (labelKey a) (labelKey b) = true)))

instance : DecidableRel gfLe := fun a b => inferInstanceAs (Decidable (_ ∨ _))

/-- Final renumbering of the gemini_full output (enumerate start 1): assign
order_index and fill in a falsy number label with str(idx). -/
def finalizeQs : ℤ → List ExtractedQuestion → List ExtractedQuestion
  | _, [] => []
  | i, q :: rest =>
    { q with order := i,
             label := some (match q.label with
               | some s => if s.data.isEmpty then toString i else s
               | none => toString i) } :: finalizeQs (i + 1) rest

/-- One page of the gemini_full PDF loop: encode then extract, wrapping any
failure message with the page number. -/
def gfPage (cfg : PipeCfg) (env : GeminiEnv) (st : String) (page : ℕ) :
    Except String (List ExtractedQuestion × String) :=
  match env.encodePage page with
  | .error e => .error ("gemini_page_extract_failed(page=" ++ toString page ++ "): " ++ e)
  | .ok _ =>
    match geminiMedia cfg env st page with
    | .error e => .error ("gemini_page_extract_failed(page=" ++ toString page ++ "): " ++ e)
    | .ok r => .ok r

/-- The sequential page loop: the first failing page aborts the whole run. -/
def gfLoop (cfg : PipeCfg) (env : GeminiEnv) (st : String) :
    List ℕ → Except String (List ExtractedQuestion × List String)
  | [] => .ok ([], [])
  | p :: rest =>
    match gfPage cfg env st p with
    | .error e => .error e
    | .ok (qs, raw) =>
      match gfLoop cfg env st rest with
      | .error e => .error e
      | .ok (qs', raws) => .ok (qs ++ qs', raw :: raws)

/-- DocumentExtractionPipeline._extract_with_gemini_full. Returns (questions,
engine, raw text, source type) or the raised error. The engine computation
compares the set of per-question engine tags with singletons; since the
question list is non-empty at that point, set equality with a singleton is
the same as all tags being that value. -/
def geminiFull (cfg : PipeCfg) (env : GeminiEnv) (ct fn : Option String) :
    Except String (List ExtractedQuestion × String × String × String) :=
  if !canUseMultimodalLLM cfg then
    .error "gemini_full mode requires a multimodal LLM backend."
  else
    let st := mediaSourceType ct fn
    let loopRes : Except String (List ExtractedQuestion × List String) :=
      if st == "pdf" then
        if env.pageCount = 0 then
          .error "gemini_page_extract_failed(page=0): could not render PDF pages."
        else gfLoop cfg env st ((List.range env.pageCount).map (· + 1))
      else if st == "image" then
        if !env.imagePrepared then
          .error "gemini_extract_failed(page=1): could not prepare image payload."
        else (geminiMedia cfg env st 1).map (fun r => (r.1, [r.2]))
      else .error "gemini_extract_failed: unsupported media type for gemini_full."
    match loopRes with
    | .error e => .error e
    | .ok (allQ, raws) =>
      if allQ.isEmpty then .error "gemini_extract_failed: no questions extracted."
      else
        let finalQ := finalizeQs 1 (List.insertionSort gfLe allQ)
        let engines := finalQ.map (fun q => q.meta.engine)
        let engine :=
          if st == "pdf" then
            if engines.all (· == "gemini_vision") then "gemini_vision_pages"
            else if engines.all (· == "gemini_vision_text") then "gemini_vision_text_pages"
            else "gemini_vision_mixed"
          else
            if engines.all (· == "gemini_vision") then "gemini_vision"
            else if engines.all (· == "gemini_vision_text") then "gemini_vision_text"
            else "gemini_vision_mixed"
        let rawText := normalizeText (joinWith "\n\n" (raws.filter (fun s => !s.data.isEmpty)))
        .ok (finalQ, engine, rawText, st)

/-! ## DocumentExtractionPipeline: the hybrid path -/

/-- Normalized payload returned by the OCR fallback port's extract call. -/
structure OcrOut where
  text : String
  conf : Option ℚ

/-- One entry of the LLM refinement response's questions list. -/
structure RefineItem where
  orderIdx : Option ℤ
  numLabel : Option String
  text : String
  conf : Option ℚ
  subject : Option String
  unit : Option String
  difficulty : Option String
  questionType : Option String
  answerFormat : Option String

/-- Outcomes of the external calls used by the hybrid path: the format
specific extraction results of _extract_pdf and _extract_image as (text,
confidence, engine) or None, the UTF-8 decode of the payload (None models a
UnicodeDecodeError), whether the payload is non-empty, the OCR fallback
port's output, and the refinement LLM call's outcome (ok none models a
response that is not a dict or whose questions field is not a list). -/
structure HybridEnv where
  pdfResult : Option (String × ℚ × String)
  imageResult : Option (String × ℚ × String)
  utf8Decoded : Option String
  payloadNonempty : Bool
  fallbackOut : OcrOut
  refineResp : Except Unit (Option (List (Option RefineItem)))

/-- The user-facing placeholder shown when the OCR fallback port returned the
mock marker text. -/
def placeholderMock : String :=
  "OCR 자동추출 결과를 확보하지 못해 임시 결과를 표시합니다. Tesseract 설치/언어 설정 또는 문서 품질(해상도, 기울기)을 확인해 주세요."

/-- The user-facing placeholder shown when the OCR fallback port returned no
text at all. -/
def placeholderEmpty : String :=
  "OCR 텍스트를 추출하지 못했습니다. 지원 형식(PDF/PNG/JPG)인지 확인하고 다시 시도해 주세요."

/-- DocumentExtractionPipeline._extract_with_fallback: normalize the fallback
port's text, replace a [mock]-prefixed result by the mock placeholder and an
empty result by the empty placeholder; a falsy confidence becomes 0.5. -/
def extractWithFallback (env : HybridEnv) : String × ℚ × String :=
  let text0 := normalizeText env.fallbackOut.text
  let text1 := if pyStartsWith text0 "[mock]" then placeholderMock else text0
  let text2 := if text1.data.isEmpty then placeholderEmpty else text1
  let confv : ℚ := match env.fallbackOut.conf with
    | none => 1/2
    | some c => if c = 0 then 1/2 else c
  (text2, confv, "ocr_fallback")

/-- "unknown"-defaulted metadata chain str(item.get(k) or metadata.get(k) or
"unknown") where a missing metadata key is the empty string. -/
def metaOr (v : Option String) (w : String) : String :=
  pyOrStr v (if w.data.isEmpty then "unknown" else w)

/-- Sort key of the refined question list: (order_index, number label). -/
def refineLe (a b : ExtractedQuestion) : Prop :=
  a.order < b.order ∨ (a.order = b.order ∧ strLeB (labelKey a) (labelKey b) = true)

instance : DecidableRel refineLe := fun a b => inferInstanceAs (Decidable (_ ∨ _))

/-- The enumerate-start-1 loop of _refine_with_llm over the response items:
skip non-dict entries and empty texts; seed defaults come from the pre-split
question at min(idx - 1, len - 1). -/
def refineItems (cfg : PipeCfg) (seeds : List ExtractedQuestion) (engine : String) :
    ℕ → List (Option RefineItem) → List ExtractedQuestion
  | _, [] => []
  | idx, it :: rest =>
    let tailr := refineItems cfg seeds engine (idx + 1) rest
    match it with
    | none => tailr
    | some item =>
      let text := normalizeText item.text
      if text.data.isEmpty then tailr
      else
        let seed := seeds.getD (min (idx - 1) (seeds.length - 1)) default
        let o0 := item.orderIdx.getD (idx : ℤ)
        let o := if o0 ≤ 0 then (idx : ℤ) else o0
        let label := pyOrStr item.numLabel (pyOrStr seed.label (toString o))
        let confv := toConfidence item.conf (seed.conf + 3/100)
        let meta : Meta :=
          { seed.meta with
            subject := metaOr item.subject seed.meta.subject,
            unit := metaOr item.unit seed.meta.unit,
            difficulty := metaOr item.difficulty seed.meta.difficulty,
            questionType := metaOr item.questionType seed.meta.questionType,
            answerFormat := metaOr item.answerFormat seed.meta.answerFormat,
            engine := engine ++ "+llm",
            llmRefined := true,
            llmModel := cfg.llmModelName }
        ⟨o, some label, text, confv, meta, buildStructure text⟩ :: tailr

/-- DocumentExtractionPipeline._refine_with_llm: None (keep the pre-LLM
split) unless the LLM is usable, the raw text is non-blank, the pre-split
list is non-empty, the call succeeds with a non-empty questions list, and at
least one refined question survives; the survivors are sorted by
(order_index, number label). -/
def refineWithLlm (cfg : PipeCfg) (env : HybridEnv) (raw : String) (engine : String)
    (questions : List ExtractedQuestion) : Option (List ExtractedQuestion) :=
  if !canUseLLM cfg || (stripChars raw.data).isEmpty || questions.isEmpty then none
  else
    match env.refineResp with
    | .error _ => none
    | .ok none => none
    | .ok (some items) =>
      if items.isEmpty then none
      else
        let rq := refineItems cfg questions engine 1 items
        if rq.isEmpty then none
        else some (List.insertionSort refineLe rq)

/-- The result record of one pipeline invocation. -/
structure ExtractionResult where
  questions : List ExtractedQuestion
  engine : String
  averageConf : ℚ
  rawText : String
  sourceType : String

/-- The per-chunk question construction of the hybrid branch of extract
(enumerate start 1): confidence decays by 0.01 per subsequent question,
clamped into [0, 1]. -/
def hybridQs (baseConf : ℚ) (engine st : String) :
    ℕ → List (Option String × String) → List ExtractedQuestion
  | _, [] => []
  | idx, (lbl, txt) :: rest =>
    let confv := max 0 (min 1 (baseConf - (1 : ℚ)/100 * ((idx : ℚ) - 1)))
    let meta : Meta :=
      { subject := "unknown", unit := "unknown", difficulty := "unknown",
        questionType := "", answerFormat := "", source := "uploaded", engine := engine,
        sourceType := st, pageIdx := 0, llmRefined := false, llmModel := "",
        cropHint := none }
    ⟨(idx : ℤ), some (pyOrStr lbl (toString idx)), txt, confv, meta, buildStructure txt⟩ ::
      hybridQs baseConf engine st (idx + 1) rest

/-- The hybrid (non-gemini_full) branch of DocumentExtractionPipeline.extract:
format-specific extraction, then UTF-8 decode of a non-empty payload, then
the never-failing OCR fallback; split into questions (a blank split is
replaced by one chunk holding the text or "[empty]"), then optional LLM
refinement. This branch raises nothing, so it returns a plain result. -/
def extractHybrid (cfg : PipeCfg) (env : HybridEnv) (ct fn : Option String) :
    ExtractionResult :=
  let lowerName := strLower (fn.getD "")
  let mime := strLower (ct.getD "")
  let pdfIsh := pyStartsWith mime "application/pdf" || pyEndsWith lowerName ".pdf"
  let imgIsh := pyStartsWith mime "image/" || pyEndsWith lowerName ".png" ||
    pyEndsWith lowerName ".jpg" || pyEndsWith lowerName ".jpeg"
  let st0 : String × Option (String × ℚ × String) :=
    if pdfIsh then ("pdf", env.pdfResult)
    else if imgIsh then ("image", env.imageResult)
    else ("binary", none)
  let st1 : String × Option (String × ℚ × String) :=
    match st0.2 with
    | some r => (st0.1, some r)
    | none =>
      if env.payloadNonempty then
        match env.utf8Decoded with
        | some d =>
          let dec := normalizeText d
          if dec.data.isEmpty then (st0.1, none)
          else ("text", some (dec, 7/10, "utf8_decode"))
        | none => (st0.1, none)
      else (st0.1, none)
  let ext := st1.2.getD (extractWithFallback env)
  let st := st1.1
  let text := ext.1
  let baseConf := ext.2.1
  let engine0 := ext.2.2
  let split0 := splitQuestions text
  let split := if split0.isEmpty then [(none, if text.data.isEmpty then "[empty]" else text)]
               else split0
  let questions0 := hybridQs baseConf engine0 st 1 split
  let res : List ExtractedQuestion × String :=
    match refineWithLlm cfg env text engine0 questions0 with
    | some rq => (rq, engine0 ++ "+llm")
    | none => (questions0, engine0)
  let avg := (res.1.map (fun q => q.conf)).sum / ((max 1 res.1.length : ℕ) : ℚ)
  ⟨res.1, res.2, avg, text, st⟩

/-- DocumentExtractionPipeline.extract: dispatch on the configured extraction
mode; gemini_full propagates its error, every other mode runs the hybrid
branch, which always returns a result. -/
def pipelineExtract (cfg : PipeCfg) (genv : GeminiEnv) (henv : HybridEnv)
    (ct fn : Option String) : Except String ExtractionResult :=
  if cfg.mode == "gemini_full" then
    match geminiFull cfg genv ct fn with
    | .error e => .error e
    | .ok (qs, engine, rawText, st) =>
      let avg := (qs.map (fun q => q.conf)).sum / ((max 1 qs.length : ℕ) : ℚ)
      .ok ⟨qs, engine, avg, rawText, st⟩
  else .ok (extractHybrid cfg henv ct fn)

/-- Numeric values of the labels in the output of chunksOf. -/
def chunkVals (items : List (Option String × String)) : List ℕ :=
  items.filterMap (fun p => p.1.map (fun s => digitsVal s.data))

/-! ## Helper lemmas -/

theorem labelDeltas_length (l : List ℕ) : (labelDeltas l).length = l.length - 1 := by
  simp [labelDeltas]

theorem labelDeltas_cons₂ (a b : ℕ) (t : List ℕ) :
    labelDeltas (a :: b :: t) = ((b : ℤ) - (a : ℤ)) :: labelDeltas (b :: t) := by
  simp [labelDeltas]

theorem chain_lt_iff_deltas (l : List ℕ) :
    List.Chain' (· < ·) l ↔ ∀ d ∈ labelDeltas l, 0 < d := by
  induction l with
  | nil => simp [labelDeltas]
  | cons a t ih =>
    cases t with
    | nil => simp [labelDeltas]
    | cons b t2 =>
      rw [labelDeltas_cons₂, List.chain'_cons]
      simp only [List.mem_cons, ih]
      constructor
      · rintro ⟨hab, hrest⟩ d hd
        rcases hd with hd | hd
        · subst hd; omega
        · exact hrest d hd
      · intro h
        refine ⟨?_, fun d hd => h d (Or.inr hd)⟩
        have := h _ (Or.inl rfl)
        omega

/-- Characterization of the label-reliability gate. -/
theorem reliable_iff (labels : List (Option String)) :
    isLabelSequenceReliable labels = true ↔
      (2 ≤ (labels.filterMap parseQuestionNo).length ∧
       List.Chain' (· < ·) (labels.filterMap parseQuestionNo) ∧
       (3 : ℚ)/5 ≤ ((labelDeltas (labels.filterMap parseQuestionNo)).countP (fun d => d == 1) : ℚ) /
         ((labelDeltas (labels.filterMap parseQuestionNo)).length : ℚ)) := by
  unfold isLabelSequenceReliable
  set parsed := labels.filterMap parseQuestionNo with hp
  by_cases h2 : parsed.length < 2
  · rw [if_pos h2]
    constructor
    · intro hf; exact absurd hf (by simp)
    · rintro ⟨hlen, _, _⟩; omega
  · rw [if_neg h2]
    have hlen := labelDeltas_length parsed
    have hne : ¬ (labelDeltas parsed).isEmpty = true := by
      rw [List.isEmpty_iff_length_eq_zero]
      omega
    rw [if_neg hne]
    by_cases hneg : (labelDeltas parsed).any (fun d => decide (d ≤ 0)) = true
    · rw [if_pos hneg]
      constructor
      · intro hf; exact absurd hf (by simp)
      · rintro ⟨_, hchain, _⟩
        rcases List.any_eq_true.mp hneg with ⟨d, hd, hdle⟩
        have := (chain_lt_iff_deltas parsed).mp hchain d hd
        simp at hdle
        omega
    · rw [if_neg hneg]
      rw [decide_eq_true_eq]
      have hpos : ∀ d ∈ labelDeltas parsed, 0 < d := by
        intro d hd
        by_contra hc
        exact hneg (List.any_eq_true.mpr ⟨d, hd, by simpa using hc⟩)
      constructor
      · intro hr
        exact ⟨by omega, (chain_lt_iff_deltas parsed).mpr hpos, hr⟩
      · rintro ⟨_, _, hr⟩; exact hr

theorem keepIncreasing_gt (last : ℕ) (l : List (ℕ × List Char)) :
    ∀ x ∈ keepIncreasing last l, last < digitsVal x.2 := by
  induction l generalizing last with
  | nil => simp [keepIncreasing]
  | cons p rest ih =>
    intro x hx
    rw [keepIncreasing] at hx
    split at hx
    · rcases List.mem_cons.mp hx with h | h
      · subst h; assumption
      · have := ih (digitsVal p.2) x h
        omega
    · exact ih last x hx

theorem keepIncreasing_pairwise (last : ℕ) (l : List (ℕ × List Char)) :
    List.Pairwise (fun a b => digitsVal a.2 < digitsVal b.2) (keepIncreasing last l) := by
  induction l generalizing last with
  | nil => simp [keepIncreasing]
  | cons p rest ih =>
    rw [keepIncreasing]
    split
    · exact List.Pairwise.cons (fun b hb => keepIncreasing_gt _ _ b hb) (ih _)
    · exact ih last

theorem chunkVals_sub (t : List Char) (kept : List (ℕ × List Char)) :
    ∀ v ∈ chunkVals (chunksOf t kept), ∃ x ∈ kept, v = digitsVal x.2 := by
  induction kept with
  | nil => simp [chunksOf, chunkVals]
  | cons p rest ih =>
    intro v hv
    rw [chunksOf] at hv
    rw [chunkVals, List.filterMap_append] at hv
    rcases List.mem_append.mp hv with h | h
    · split at h
      · simp at h
      · simp at h
        exact ⟨p, List.mem_cons_self _ _, h⟩
    · rcases ih v h with ⟨x, hx, he⟩
      exact ⟨x, List.mem_cons_of_mem _ hx, he⟩

theorem chunkVals_pairwise (t : List Char) (kept : List (ℕ × List Char))
    (h : List.Pairwise (fun a b => digitsVal a.2 < digitsVal b.2) kept) :
    List.Pairwise (· < ·) (chunkVals (chunksOf t kept)) := by
  induction kept with
  | nil => simp [chunksOf, chunkVals]
  | cons p rest ih =>
    rw [chunksOf, chunkVals, List.filterMap_append]
    rcases List.pairwise_cons.mp h with ⟨hhead, htail⟩
    have htl := ih htail
    rw [chunkVals] at htl
    split
    · rw [List.filterMap_nil, List.nil_append]
      exact htl
    · simp only [List.filterMap_cons, List.filterMap_nil, Option.map_some', List.nil_append,
        List.singleton_append]
      refine List.Pairwise.cons ?_ htl
      intro v hv
      rcases chunkVals_sub t rest v (by simpa [chunkVals] using hv) with ⟨x, hx, he⟩
      subst he
      exact hhead x hx

/-! ## Claim theorems -/

/-- C5: TextSegmenter (_split_questions) keeps only question-number matches
whose numeric value strictly increases versus the last kept match (so the
numeric labels of the returned chunks are strictly increasing); on the input
"1. foo\n1) a\n2) b\n\n2. bar\n1) c" it yields exactly two chunks labeled "1"
and "2", and the choice line "1) a" does not start a new chunk (it stays
inside the first chunk); empty or blank input yields the empty list. -/
theorem split_questions_spec :
    splitQuestions "1. foo\n1) a\n2) b\n\n2. bar\n1) c" =
      [(some "1", "1. foo\n1) a"), (some "2", "2) b\n\n2. bar\n1) c")] ∧
    (∀ raw : String,
      List.Pairwise (· < ·) (chunkVals (splitQuestions raw))) ∧
    (∀ raw : String, stripChars (newlineNorm raw.data) = [] → splitQuestions raw = []) ∧
    splitQuestions "" = [] ∧ splitQuestions " \n  \t " = [] := by
  refine ⟨by decide, ?_, ?_, by decide, by decide⟩
  · intro raw
    rw [splitQuestions]
    split
    · simp [chunkVals]
    · split
      · simp [chunkVals]
      · rw [chunksOr]
        split
        · simp [chunkVals]
        · exact chunkVals_pairwise _ _
            (List.Pairwise.cons (fun b hb => keepIncreasing_gt _ _ b hb)
              (keepIncreasing_pairwise _ _))
  · intro raw hblank
    rw [splitQuestions, if_pos (by simp [hblank])]

/-- C5 witness: the blank-input conjunct applied at a concrete blank input. -/
theorem split_questions_spec_witness :
    stripChars (newlineNorm ("  \r\n ").data) = [] ∧ splitQuestions "  \r\n " = [] :=
  ⟨by decide, split_questions_spec.2.2.1 "  \r\n " (by decide)⟩

/-- C6: the label-reliability gate returns true exactly when at least two
labels parse to numbers, the parsed sequence is strictly increasing (every
delta positive), and at least 60 percent of the deltas equal exactly 1; in
particular ["1","2","3","4"] is reliable while ["1","3","5"] and
[None,"1",None] are not. -/
theorem label_reliability_spec :
    (∀ labels : List (Option String),
      isLabelSequenceReliable labels = true ↔
        (2 ≤ (labels.filterMap parseQuestionNo).length ∧
         List.Chain' (· < ·) (labels.filterMap parseQuestionNo) ∧
         (3 : ℚ)/5 ≤
           ((labelDeltas (labels.filterMap parseQuestionNo)).countP (fun d => d == 1) : ℚ) /
             ((labelDeltas (labels.filterMap parseQuestionNo)).length : ℚ))) ∧
    isLabelSequenceReliable [some "1", some "2", some "3", some "4"] = true ∧
    isLabelSequenceReliable [some "1", some "3", some "5"] = false ∧
    isLabelSequenceReliable [none, some "1", none] = false := by
  refine ⟨reliable_iff, ?_, ?_, ?_⟩
  · rw [reliable_iff]
    have hd : labelDeltas ([some "1", some "2", some "3", some "4"].filterMap parseQuestionNo) =
        [1, 1, 1] := by decide
    rw [hd]
    refine ⟨by decide, ?_, ?_⟩
    · have hp : List.filterMap parseQuestionNo [some "1", some "2", some "3", some "4"] =
          [1, 2, 3, 4] := by decide
      rw [hp]
      simp [List.chain'_cons]
    have hc : (([1, 1, 1] : List ℤ).countP (fun d => d == 1)) = 3 := by decide
    rw [hc]
    norm_num
  · rw [← Bool.not_eq_true, reliable_iff]
    rintro ⟨-, -, hr⟩
    revert hr
    have hd : labelDeltas ([some "1", some "3", some "5"].filterMap parseQuestionNo) =
        [2, 2] := by decide
    rw [hd]
    have hc : (([2, 2] : List ℤ).countP (fun d => d == 1)) = 0 := by decide
    rw [hc]
    norm_num
  · rw [← Bool.not_eq_true, reliable_iff]
    rintro ⟨h2, -, -⟩
    revert h2
    decide

/-- C6 witness: the characterization applied at a concrete reliable input. -/
theorem label_reliability_spec_witness :
    isLabelSequenceReliable [some "2", some "3"] = true :=
  (label_reliability_spec.1 [some "2", some "3"]).mpr
    ⟨by decide, by
      have hp : List.filterMap parseQuestionNo [some "2", some "3"] = [2, 3] := by decide
      rw [hp]
      simp [List.chain'_cons], by
      have hd : labelDeltas ([some "2", some "3"].filterMap parseQuestionNo) = [1] := by decide
      rw [hd]
      have hc : (([1] : List ℤ).countP (fun d => d == 1)) = 1 := by decide
      rw [hc]
      norm_num⟩

/-- C7: whenever the hint list is shorter than the question count (and the
question count is positive), the top planning tier returns None - the
use-fallback signal - and never a partial list. -/
theorem ranges_from_page_hints_short_spec :
    ∀ (phs pws : List ℤ) (qc : ℕ) (hints : List (Option Hint)),
      0 < qc → hints.length < qc → rangesFromPageHints phs pws qc hints = none := by
  intro phs pws qc hints hqc hlen
  rw [rangesFromPageHints, if_neg (by omega), if_pos (Or.inr (Or.inr hlen))]

/-- C7 witness: a concrete one-hint list with question count two. -/
theorem ranges_from_page_hints_short_spec_witness :
    0 < 2 ∧ ([some (⟨some 1, some 0, some 1, none, none⟩ : Hint)] : List (Option Hint)).length < 2 ∧
    rangesFromPageHints [1000] [800] 2 [some ⟨some 1, some 0, some 1, none, none⟩] = none :=
  ⟨by decide, by decide,
    ranges_from_page_hints_short_spec [1000] [800] 2 [some ⟨some 1, some 0, some 1, none, none⟩]
      (by decide) (by decide)⟩

/-- Characterization of the fallback cursor walk: a successful scan returns
the first unused detection whose y exceeds the previously picked value,
skipping (consuming) the earlier unused detections. -/
theorem scanNext_spec :
    ∀ (queue : List ℤ) (p y : ℤ) (rest : List ℤ),
      scanNext queue (some p) = some (y, rest) →
        p < y ∧ ∃ pre, queue = pre ++ y :: rest ∧ ∀ z ∈ pre, z ≤ p := by
  intro queue
  induction queue with
  | nil => intro p y rest h; simp [scanNext] at h
  | cons a t ih =>
    intro p y rest h
    rw [scanNext] at h
    split at h
    · rename_i hc
      simp at hc
      injection h with h'
      injection h' with h1 h2
      subst h1; subst h2
      exact ⟨hc, [], rfl, by simp⟩
    · rename_i hc
      simp at hc
      rcases ih p y rest h with ⟨hlt, pre, hq, hpre⟩
      refine ⟨hlt, a :: pre, by rw [hq, List.cons_append], ?_⟩
      intro z hz
      rcases List.mem_cons.mp hz with hz | hz
      · subst hz; exact hc
      · exact hpre z hz

/-- C8: anchor-to-label matching (_pick_starts_for_questions) assigns each
requested label the first unconsumed detected anchor with the same parsed
question number when one exists (popping that anchor's queue), otherwise the
next unused detection whose y exceeds the previously picked value; on the
detected anchors [(100,1),(250,2),(400,3),(550,4)] with requested labels
["1","3","4"] it yields [100, 400, 550]. -/
theorem pick_starts_spec :
    pickStartsForQuestions 1000 [some "1", some "3", some "4"]
      [(100, 1), (250, 2), (400, 3), (550, 4)] = [100, 400, 550] ∧
    (∀ (byQ : ℤ → List ℤ) (queue : List ℤ) (last : Option ℤ)
       (l : Option String) (ls : List (Option String)) (q : ℕ) (y : ℤ) (qrest : List ℤ),
      parseQuestionNo l = some q → byQ (q : ℤ) = y :: qrest →
        pickGo byQ queue last (l :: ls) =
          y :: pickGo (fun n => if n = (q : ℤ) then qrest else byQ n) queue (some y) ls) ∧
    (∀ (byQ : ℤ → List ℤ) (queue : List ℤ) (last : Option ℤ)
       (l : Option String) (ls : List (Option String)),
      parseQuestionNo l = none →
        pickGo byQ queue last (l :: ls) =
          match scanNext queue last with
          | some (y, queue') => y :: pickGo byQ queue' (some y) ls
          | none => pickGo byQ queue last ls) ∧
    (∀ (byQ : ℤ → List ℤ) (queue : List ℤ) (last : Option ℤ)
       (l : Option String) (ls : List (Option String)) (q : ℕ),
      parseQuestionNo l = some q → byQ (q : ℤ) = [] →
        pickGo byQ queue last (l :: ls) =
          match scanNext queue last with
          | some (y, queue') => y :: pickGo byQ queue' (some y) ls
          | none => pickGo byQ queue last ls) ∧
    (∀ (queue : List ℤ) (p y : ℤ) (rest : List ℤ),
      scanNext queue (some p) = some (y, rest) →
        p < y ∧ ∃ pre, queue = pre ++ y :: rest ∧ ∀ z ∈ pre, z ≤ p) := by
  refine ⟨by decide, ?_, ?_, ?_, scanNext_spec⟩
  · intro byQ queue last l ls q y qrest hparse hq
    simp only [pickGo, hparse, hq]
  · intro byQ queue last l ls hparse
    simp only [pickGo, hparse]
  · intro byQ queue last l ls q hparse hq
    simp only [pickGo, hparse, hq]

/-- C8 witness: the number-match step applied at a concrete state. -/
theorem pick_starts_spec_witness :
    parseQuestionNo (some "3") = some 3 ∧
    pickGo (fun n => if n = 3 then [400] else []) [100, 400] none [some "3"] = [400] := by
  refine ⟨by decide, ?_⟩
  rw [pick_starts_spec.2.1 (fun n => if n = 3 then [400] else [])
    [100, 400] none (some "3") [] 3 400 [] (by decide) (by decide)]
  rfl

theorem dropWhile_eq_drop_len (p : α → Bool) :
    ∀ l : List α, l.dropWhile p = l.drop (l.takeWhile p).length := by
  intro l
  induction l with
  | nil => rfl
  | cons c rest ih =>
    by_cases hc : p c
    · rw [List.dropWhile_cons_of_pos hc, List.takeWhile_cons_of_pos hc]
      simpa using ih
    · rw [List.dropWhile_cons_of_neg hc, List.takeWhile_cons_of_neg hc]
      rfl

theorem dropWhile_head_not (p : α → Bool) :
    ∀ (l : List α) (x : α) (xs : List α), l.dropWhile p = x :: xs → p x = false := by
  intro l
  induction l with
  | nil => intro x xs h; cases h
  | cons c rest ih =>
    intro x xs h
    by_cases hc : p c
    · rw [List.dropWhile_cons_of_pos hc] at h
      exact ih x xs h
    · rw [List.dropWhile_cons_of_neg hc] at h
      injection h with h1 _
      subst h1
      exact Bool.eq_false_iff.mpr hc

theorem stripChars_cons_ne (c : Char) (t : List Char) (hc : isPyWs c = false) :
    (stripChars (c :: t)).isEmpty = false := by
  rw [stripChars]
  rw [List.dropWhile_cons_of_neg (by simp [hc])]
  by_contra h
  simp only [Bool.not_eq_false, List.isEmpty_iff] at h
  have h2 : (c :: t).reverse.dropWhile isPyWs = [] := by
    have := congrArg List.reverse h
    simpa using this
  have := List.dropWhile_eq_nil_iff.mp h2 c (by simp)
  rw [hc] at this
  cases this

/-- The whole suffix beyond the skip counter is whitespace, so the scan finds
nothing further. -/
theorem scanCGo_allWs : ∀ (l : List Char) (b : Bool) (n : ℕ),
    (∀ x ∈ l.drop n, isPyWs x = true) → scanCGo l b n = [] := by
  intro l
  induction l with
  | nil => intro b n _; rfl
  | cons c rest ih =>
    intro b n hws
    match n with
    | n' + 1 =>
      rw [scanCGo]
      exact ih _ n' (by
        intro x hx
        exact hws x (by simpa using hx))
    | 0 =>
      have hall : ∀ x ∈ c :: rest, isPyWs x = true := by simpa using hws
      have hmc : matchCHere (c :: rest) = none := by
        have htw : (c :: rest).takeWhile isPyWs = c :: rest :=
          List.takeWhile_eq_self_iff.mpr hall
        rw [matchCHere]
        rw [htw, List.drop_length]
      rw [scanCGo]
      split
      · rw [hmc]
        exact ih _ 0 (by
          intro x hx
          exact hall x (List.mem_cons_of_mem _ (by simpa using hx)))
      · exact ih _ 0 (by
          intro x hx
          exact hall x (List.mem_cons_of_mem _ (by simpa using hx)))

theorem matchCHere_min_len {l : List Char} {grp : List Char} {len : ℕ}
    (h : matchCHere l = some (grp, len)) : 2 ≤ len := by
  simp only [matchCHere] at h
  repeat' split at h
  all_goals cases h
  all_goals omega

/-- When a choice match's captured group strips to nothing (the end-of-text
backtracking case), everything beyond the match is whitespace. -/
theorem matchCHere_empty_strip {l : List Char} {grp : List Char} {len : ℕ}
    (h : matchCHere l = some (grp, len)) (he : (stripChars grp).isEmpty = true) :
    ∀ x ∈ l.drop len, isPyWs x = true := by
  simp only [matchCHere] at h
  repeat' split at h
  all_goals cases h
  · -- main branch: the group starts with a non-whitespace character, so it
    -- cannot strip to nothing
    rename_i a1 a2 a3 a4 a5 r4b heqOuter hdelim r4spur hd tl heq2
    exfalso
    rw [← dropWhile_eq_drop_len] at heq2 he
    rw [heq2] at he
    have hw := dropWhile_head_not isPyWs _ _ _ heq2
    have hnl : (hd != '\n') = true := by
      have hne : hd ≠ '\n' := by
        intro hh
        subst hh
        simp [isPyWs] at hw
      simpa using hne
    rw [@List.takeWhile_cons_of_pos _ (fun c => c != '\n') hd tl hnl] at he
    rw [stripChars_cons_ne _ _ hw] at he
    cases he
  · -- end-of-text branch: everything after the symbol and delimiter is
    -- whitespace, hence so is everything beyond the match
    rename_i a1 a2 a3 a4 a5 r4b heqOuter hdelim r4spur heq3 xo cl heq4
    intro x hx
    rw [← dropWhile_eq_drop_len] at heq3
    have hr3 : ∀ y ∈ r4b, isPyWs y = true := List.dropWhile_eq_nil_iff.mp heq3
    have harith : (List.takeWhile isPyWs l).length + 2 +
        (List.dropWhile (fun c => c == '\n') (List.takeWhile isPyWs r4b).reverse).reverse.length =
        (List.takeWhile isPyWs l).length +
          ((List.dropWhile (fun c => c == '\n') (List.takeWhile isPyWs r4b).reverse).reverse.length + 1 + 1) := by
      omega
    rw [harith, ← List.drop_drop, heqOuter] at hx
    simp only [List.drop_succ_cons] at hx
    exact hr3 x (List.mem_of_mem_drop hx)

/-- Only the last captured choice group can strip to nothing: an
empty-stripping match occurs only at the end of the text with nothing but
whitespace after it, so no further match follows it. -/
theorem scanCGo_dropLast : ∀ (l : List Char) (b : Bool) (n : ℕ),
    ∀ g ∈ (scanCGo l b n).dropLast, (stripChars g).isEmpty = false := by
  intro l
  induction l with
  | nil => intro b n g hg; simp [scanCGo] at hg
  | cons c rest ih =>
    intro b n g hg
    match n with
    | n' + 1 =>
      rw [scanCGo] at hg
      exact ih _ _ g hg
    | 0 =>
      rw [scanCGo] at hg
      split at hg
      · cases hmc : matchCHere (c :: rest) with
        | none =>
          rw [hmc] at hg
          exact ih _ _ g hg
        | some pr =>
          obtain ⟨grp, len⟩ := pr
          rw [hmc] at hg
          dsimp only at hg
          cases hT : scanCGo rest (c == '\n') (len - 1) with
          | nil =>
            rw [hT] at hg
            simp at hg
          | cons t0 ts =>
            rw [hT] at hg
            simp only [List.dropLast_cons₂, List.mem_cons] at hg
            rcases hg with hg | hg
            · subst hg
              by_contra hemp
              simp only [Bool.not_eq_false] at hemp
              have hws := matchCHere_empty_strip hmc hemp
              have hnil : scanCGo rest (c == '\n') (len - 1) = [] := by
                apply scanCGo_allWs
                intro x hx
                apply hws
                have hlen := matchCHere_min_len hmc
                have h2 : (c :: rest).drop len = rest.drop (len - 1) := by
                  obtain ⟨k, rfl⟩ : ∃ k, len = k + 1 := ⟨len - 1, by omega⟩
                  simp
                rw [h2]
                exact hx
              rw [hnil] at hT
              cases hT
            · have := ih (c == '\n') (len - 1) g
              rw [hT] at this
              exact this hg
      · exact ih _ _ g hg

/-- When at most the last group strips to nothing, the choice labels are
exactly the positional sequence i+1, i+2, ... -/
theorem mkChoices_labels : ∀ (gs : List (List Char)) (i : ℕ),
    (∀ g ∈ gs.dropLast, (stripChars g).isEmpty = false) →
    (mkChoices i gs).map (fun c => c.label) =
      (List.range' (i + 1) (mkChoices i gs).length).map Nat.repr := by
  intro gs
  induction gs with
  | nil => intro i h; simp [mkChoices]
  | cons g rest ih =>
    intro i h
    cases rest with
    | nil =>
      rw [mkChoices]
      by_cases hg : (stripChars g).isEmpty = true
      · rw [if_pos hg]
        simp [mkChoices]
      · rw [if_neg hg]
        simp [mkChoices, List.range'_one]
    | cons r rs =>
      have hgne : (stripChars g).isEmpty = false := h g (by simp)
      rw [mkChoices, hgne]
      simp only [Bool.false_eq_true, if_false, List.singleton_append, List.map_cons,
        List.length_cons]
      have h' : ∀ g' ∈ (r :: rs).dropLast, (stripChars g').isEmpty = false := by
        intro g' hg'
        exact h g' (by simp [hg'])
      rw [List.range'_succ]
      simp only [List.map_cons, List.cons.injEq]
      refine ⟨by simp, ?_⟩
      simpa using ih (i + 1) h'

/-- C9: StructureBuilder (_build_structure) is deterministic (identical text
yields identical choice lists; the embedding is a pure function, so this is
definitional), and after discarding empty-text matches the labels of the
returned choices are always the synthetic positional sequence "1".."n",
whatever choice symbols were matched; a concrete mixed-symbol input shows the
labels are positional. -/
theorem build_structure_spec :
    (∀ t : String, buildStructure t = buildStructure t) ∧
    (∀ t : String,
      (buildStructure t).choices.map (fun c => c.label) =
        (List.range' 1 (buildStructure t).choices.length).map Nat.repr) ∧
    (buildStructure "stem\n① alpha\nB) beta\n3. gamma").choices.map
        (fun c => (c.label, c.text)) =
      [("1", "alpha"), ("2", "beta"), ("3", "gamma")] := by
  refine ⟨fun t => rfl, ?_, by decide⟩
  intro t
  have h := mkChoices_labels (scanChoices t.data) 0 (scanCGo_dropLast _ _ _)
  simpa [buildStructure] using h

theorem parsePageHint_clamps (numPages qidx : ℕ) (hh : Hint) (p : ℤ) (t b : ℚ)
    (hpage : hh.page = some p) (hp1 : 1 ≤ p) (hp2 : p ≤ (numPages : ℤ))
    (ht : hh.top = some t) (hb : hh.bot = some b) :
    ∃ ph : PHint, parsePageHint numPages qidx (some hh) = some ph ∧
      ph.valid = decide (clamp01 t < clamp01 b) ∧ ph.top = clamp01 t ∧
      ph.bot = clamp01 b ∧ ph.page = p ∧ ph.qidx = qidx := by
  rw [parsePageHint, hpage]
  dsimp only
  rw [if_neg (by omega), ht, hb]
  exact ⟨_, rfl, rfl, rfl, rfl, rfl, rfl⟩

theorem parsePageHint_noTop (numPages qidx : ℕ) (hh : Hint) (p : ℤ)
    (hpage : hh.page = some p) (hp1 : 1 ≤ p) (hp2 : p ≤ (numPages : ℤ))
    (ht : hh.top = none) :
    ∃ ph : PHint, parsePageHint numPages qidx (some hh) = some ph ∧ ph.valid = false := by
  rw [parsePageHint, hpage]
  dsimp only
  rw [if_neg (by omega), ht]
  exact ⟨_, rfl, rfl⟩

theorem parsePageHint_noPage (numPages qidx : ℕ) (hh : Hint)
    (hpage : hh.page = none) : parsePageHint numPages qidx (some hh) = none := by
  rw [parsePageHint, hpage]

theorem parsePageHint_badPage (numPages qidx : ℕ) (hh : Hint) (p : ℤ)
    (hpage : hh.page = some p) (hbad : p < 1 ∨ (numPages : ℤ) < p) :
    parsePageHint numPages qidx (some hh) = none := by
  rw [parsePageHint, hpage]
  dsimp only
  rw [if_pos hbad]

/-! ## Helper lemmas for the region planner claims -/

/-- parsePageHint succeeds whenever the hint is a dict whose pageIndex parses
in range, whatever the ratio fields hold. -/
theorem parsePageHint_page_ok (numPages qidx : ℕ) (hh : Hint) (p : ℤ)
    (hpage : hh.page = some p) (h1 : 1 ≤ p) (h2 : p ≤ (numPages : ℤ)) :
    ∃ ph : PHint, parsePageHint numPages qidx (some hh) = some ph ∧
      ph.qidx = qidx ∧ ph.page = p := by
  rw [parsePageHint, hpage]
  dsimp only
  rw [if_neg (by omega)]
  exact ⟨_, rfl, rfl, rfl⟩

/-- The horizontal ratios are clamped exactly like the vertical ones, and
x-validity is judged on the clamped values. -/
theorem parsePageHint_clampsX (numPages qidx : ℕ) (hh : Hint) (p : ℤ) (l r : ℚ)
    (hpage : hh.page = some p) (hp1 : 1 ≤ p) (hp2 : p ≤ (numPages : ℤ))
    (hl : hh.left = some l) (hr : hh.right = some r) :
    ∃ ph : PHint, parsePageHint numPages qidx (some hh) = some ph ∧
      ph.hasX = decide (clamp01 l < clamp01 r) ∧
      ph.left = clamp01 l ∧ ph.right = clamp01 r := by
  rw [parsePageHint, hpage]
  dsimp only
  rw [if_neg (by omega), hl, hr]
  exact ⟨_, rfl, rfl, rfl, rfl⟩

/-- Any successfully parsed hint carries the requested question index and an
in-range page. -/
theorem parsePageHint_fields {numPages qidx : ℕ} {h : Option Hint} {ph : PHint}
    (hp : parsePageHint numPages qidx h = some ph) :
    ph.qidx = qidx ∧ 1 ≤ ph.page ∧ ph.page ≤ (numPages : ℤ) := by
  cases h with
  | none => exact absurd hp (by simp [parsePageHint])
  | some hh =>
    rw [parsePageHint] at hp
    cases hpg : hh.page with
    | none => rw [hpg] at hp; cases hp
    | some p =>
      rw [hpg] at hp
      dsimp only at hp
      by_cases hb : p < 1 ∨ (numPages : ℤ) < p
      · rw [if_pos hb] at hp; cases hp
      · rw [if_neg hb] at hp
        injection hp with hx
        push_neg at hb
        refine ⟨?_, ?_, ?_⟩ <;> rw [← hx] <;> simp <;> omega

/-- The parsing loop yields one parsed hint per question, with consecutive
question indices and in-range pages. -/
theorem parsePageHintsGo_ok :
    ∀ (n i numPages : ℕ) (hints : List (Option Hint)) (parsed : List PHint),
      parsePageHintsGo numPages hints i n = some parsed →
      parsed.length = n ∧
      ∀ k, k < n → (parsed.getD k default).qidx = i + k ∧
        1 ≤ (parsed.getD k default).page ∧
        (parsed.getD k default).page ≤ (numPages : ℤ)
  | 0, i, numPages, hints, parsed, hp => by
    simp only [parsePageHintsGo] at hp
    injection hp with hx
    subst hx
    exact ⟨rfl, fun k hk => absurd hk (by omega)⟩
  | n + 1, i, numPages, hints, parsed, hp => by
    rw [parsePageHintsGo] at hp
    cases hph : parsePageHint numPages i (hints.getD i none) with
    | none => rw [hph] at hp; cases hp
    | some ph =>
      rw [hph] at hp
      cases hrec : parsePageHintsGo numPages hints (i + 1) n with
      | none => rw [hrec] at hp; cases hp
      | some rest =>
        rw [hrec] at hp
        simp only [Option.map_some] at hp
        injection hp with hx
        subst hx
        obtain ⟨hlen, hidx⟩ := parsePageHintsGo_ok n (i + 1) numPages hints rest hrec
        obtain ⟨hq, hp1, hp2⟩ := parsePageHint_fields hph
        refine ⟨by simp [hlen], fun k hk => ?_⟩
        cases k with
        | zero => simpa using ⟨hq, hp1, hp2⟩
        | succ k =>
          have := hidx k (by omega)
          simpa [Nat.add_assoc, Nat.add_comm 1 k] using this

/-- The parsing loop succeeds when every hint is a dict whose pageIndex
parses in range. -/
theorem parsePageHintsGo_total :
    ∀ (n i numPages : ℕ) (hints : List (Option Hint)),
      (∀ k, k < n → ∃ hh p, hints.getD (i + k) none = some hh ∧ hh.page = some p ∧
        1 ≤ p ∧ p ≤ (numPages : ℤ)) →
      ∃ parsed, parsePageHintsGo numPages hints i n = some parsed
  | 0, i, numPages, hints, _ => ⟨[], rfl⟩
  | n + 1, i, numPages, hints, hall => by
    obtain ⟨hh, p, h0, hpage, h1, h2⟩ := hall 0 (by omega)
    rw [Nat.add_zero] at h0
    obtain ⟨ph, hph, _, _⟩ := parsePageHint_page_ok numPages i hh p hpage h1 h2
    obtain ⟨rest, hrest⟩ := parsePageHintsGo_total n (i + 1) numPages hints
      (fun k hk => by
        obtain ⟨hh', p', e0, e1, e2, e3⟩ := hall (k + 1) (by omega)
        exact ⟨hh', p', by rwa [show i + 1 + k = i + (k + 1) from by omega], e1, e2, e3⟩)
    refine ⟨ph :: rest, ?_⟩
    rw [parsePageHintsGo, h0, hph, hrest]
    rfl

/-- Skipping in the gap walk is dropping. -/
theorem fillGapsGo_skip (x : ℚ) :
    ∀ (l : List (Option (ℚ × ℚ))) (n : ℕ), fillGapsGo x l n = fillGapsGo x (l.drop n) 0
  | l, 0 => by rw [List.drop_zero]
  | [], n + 1 => by simp only [fillGapsGo, List.drop_nil]
  | o :: rest, n + 1 => by
    simp only [fillGapsGo, List.drop_succ_cons]
    exact fillGapsGo_skip x rest n

/-- One fill run has exactly the gap's length. -/
theorem fillRun_length (x : ℚ) (g : ℕ) (r : ℚ) : (fillRun x g r).length = g := by
  simp only [fillRun]
  rw [List.length_map, List.length_range]

/-- The gap walk emits exactly one span per input entry. -/
theorem fillGapsGo_length :
    ∀ (l : List (Option (ℚ × ℚ))) (x : ℚ), (fillGapsGo x l 0).length = l.length
  | [], x => rfl
  | some p :: rest, x => by
    simp only [fillGapsGo, List.length_cons, fillGapsGo_length rest p.2]
  | none :: rest, x => by
    have hts := (@List.takeWhile_sublist _ rest (fun o : Option (ℚ × ℚ) => o.isNone)).length_le
    simp only [fillGapsGo, List.length_append, List.length_map, fillRun_length,
      List.length_cons]
    rw [show 1 + (rest.takeWhile (fun o : Option (ℚ × ℚ) => o.isNone)).length - 1 =
        (rest.takeWhile (fun o : Option (ℚ × ℚ) => o.isNone)).length from by omega]
    rw [fillGapsGo_skip]
    rw [fillGapsGo_length (rest.drop
      (rest.takeWhile (fun o : Option (ℚ × ℚ) => o.isNone)).length)]
    simp only [List.length_drop]
    omega
  termination_by l => l.length
  decreasing_by
  · simp
  · simp only [List.length_drop, List.length_cons]
    omega

/-- ratiosInit has one entry per local hint. -/
theorem ratiosInit_length (locals : List PHint) :
    (ratiosInit locals).length = locals.length := by
  simp [ratiosInit]

/-- processPage emits one keyed region per local hint. -/
theorem processPage_length (h w : ℤ) (locals : List PHint) :
    (processPage h w locals).length = locals.length := by
  simp [processPage, fillGapsGo_length, ratiosInit_length]

/-- Every processPage entry is keyed by some local hint's question index and
carries a toPixel region for that hint. -/
theorem processPage_mem {h w : ℤ} {locals : List PHint} {pr : ℕ × Region}
    (hm : pr ∈ processPage h w locals) :
    ∃ it ∈ locals, pr.1 = it.qidx ∧ ∃ tb gem, pr.2 = toPixel h w tb it gem := by
  simp only [processPage, List.mem_map] at hm
  obtain ⟨⟨a, b⟩, hmem, rfl⟩ := hm
  have hab := List.of_mem_zip hmem
  exact ⟨a, hab.1, rfl, b.1, b.2, rfl⟩

/-- Every local hint gets an entry in processPage keyed by its question
index. -/
theorem processPage_covers {h w : ℤ} {locals : List PHint} {it : PHint}
    (hm : it ∈ locals) : ∃ r, (it.qidx, r) ∈ processPage h w locals := by
  obtain ⟨j, hj, rfl⟩ := List.mem_iff_getElem.mp hm
  have hflen : (fillGapsGo 0 (ratiosInit locals) 0).length = locals.length := by
    rw [fillGapsGo_length, ratiosInit_length]
  have hjf : j < (fillGapsGo 0 (ratiosInit locals) 0).length := by omega
  have hjz : j < (locals.zip (fillGapsGo 0 (ratiosInit locals) 0)).length := by
    simpa [List.length_zip, hflen] using hj
  refine ⟨toPixel h w ((fillGapsGo 0 (ratiosInit locals) 0)[j]).1 locals[j]
      ((fillGapsGo 0 (ratiosInit locals) 0)[j]).2, ?_⟩
  simp only [processPage, List.mem_map]
  refine ⟨(locals[j], (fillGapsGo 0 (ratiosInit locals) 0)[j]), ?_, rfl⟩
  have hz := List.getElem_mem hjz
  rw [List.getElem_zip] at hz
  exact hz

/-- The pixel conversion always yields a non-degenerate vertical span, and
any span shorter than 60 pixels has been clipped at the page bottom. -/
theorem toPixel_invariant (h w : ℤ) (tb : ℚ × ℚ) (it : PHint) (gem : Bool)
    (hph : 1 ≤ h) :
    (toPixel h w tb it gem).y1 < (toPixel h w tb it gem).y2 ∧
      (60 ≤ (toPixel h w tb it gem).y2 - (toPixel h w tb it gem).y1 ∨
        (toPixel h w tb it gem).y2 = h) := by
  simp only [toPixel]
  generalize pyTrunc (tb.1 * (h : ℚ)) = a
  generalize pyTrunc (tb.2 * (h : ℚ)) = b
  have hfd : pyFloorDiv (60 - (max (max 0 (min (h - 1) a) + 12) (min h b) -
      max 0 (min (h - 1) a))) 2 =
      (60 - (max (max 0 (min (h - 1) a) + 12) (min h b) - max 0 (min (h - 1) a))) / 2 := by
    rw [pyFloorDiv, Int.fdiv_eq_ediv]
    omega
  split_ifs with h1 <;> simp only [hfd] <;> constructor <;> omega

/-- Every assigned entry comes from one page's processPage run for a parsed
hint living on that page. -/
theorem pageAssignments_mem {pageHeights pageWidths : List ℤ} {parsed : List PHint}
    {pr : ℕ × Region} (hm : pr ∈ pageAssignments pageHeights pageWidths parsed) :
    ∃ p, p < pageHeights.length ∧ ∃ it ∈ parsed, it.page = (p : ℤ) + 1 ∧
      pr.1 = it.qidx ∧ ∃ tb gem,
        pr.2 = toPixel (max 1 (pageHeights.getD p 0))
          (max 1 ((if pageWidths.isEmpty then List.replicate pageHeights.length (0 : ℤ)
                   else pageWidths).getD p 0)) tb it gem := by
  simp only [pageAssignments, List.mem_flatMap, List.mem_range] at hm
  obtain ⟨p, hp, hmem⟩ := hm
  by_cases hle : (parsed.filter (fun it => it.page == ((p : ℤ) + 1))).isEmpty
  · rw [if_pos hle] at hmem; cases hmem
  · rw [if_neg hle] at hmem
    obtain ⟨it, hit, h1, tb, gem, h2⟩ := processPage_mem hmem
    have hf := List.mem_filter.mp hit
    exact ⟨p, hp, it, hf.1, by simpa using hf.2, h1, tb, gem, h2⟩

/-- Every parsed hint whose page is in range contributes an assigned entry
keyed by its question index. -/
theorem pageAssignments_covers {pageHeights pageWidths : List ℤ} {parsed : List PHint}
    {q : ℕ} (hq : q < parsed.length)
    (hqx : (parsed.getD q default).qidx = q)
    (h1 : 1 ≤ (parsed.getD q default).page)
    (h2 : (parsed.getD q default).page ≤ (pageHeights.length : ℤ)) :
    ∃ r, (q, r) ∈ pageAssignments pageHeights pageWidths parsed := by
  have hpage : (parsed.getD q default).page =
      ((((parsed.getD q default).page - 1).toNat : ℕ) : ℤ) + 1 := by omega
  have hp0 : ((parsed.getD q default).page - 1).toNat < pageHeights.length := by omega
  have hitmem : parsed.getD q default ∈ parsed := by
    rw [List.getD_eq_getElem _ _ hq]
    exact List.getElem_mem hq
  have hfil : parsed.getD q default ∈ parsed.filter
      (fun x => x.page == ((((parsed.getD q default).page - 1).toNat : ℕ) : ℤ) + 1) := by
    refine List.mem_filter.mpr ⟨hitmem, ?_⟩
    simpa using hpage
  obtain ⟨r, hr⟩ := processPage_covers
    (h := max 1 (pageHeights.getD (((parsed.getD q default).page - 1).toNat) 0))
    (w := max 1 ((if pageWidths.isEmpty then List.replicate pageHeights.length (0 : ℤ)
      else pageWidths).getD (((parsed.getD q default).page - 1).toNat) 0)) hfil
  refine ⟨r, ?_⟩
  simp only [pageAssignments, List.mem_flatMap, List.mem_range]
  refine ⟨(((parsed.getD q default).page - 1).toNat), hp0, ?_⟩
  rw [if_neg (by
    intro hemp
    rw [List.isEmpty_iff] at hemp
    rw [hemp] at hfil
    cases hfil)]
  rw [hqx] at hr
  exact hr

/-- In a parsed list whose entries carry their own index, a member is found
at its question index. -/
theorem mem_of_qidx_indexed {parsed : List PHint}
    (hidx : ∀ k, k < parsed.length → (parsed.getD k default).qidx = k)
    {it : PHint} (hm : it ∈ parsed) : it = parsed.getD it.qidx default := by
  obtain ⟨j, hj, rfl⟩ := List.mem_iff_getElem.mp hm
  have hx := hidx j hj
  rw [List.getD_eq_getElem _ _ hj] at hx
  rw [hx, List.getD_eq_getElem _ _ hj]

/-- filterMap keeps the length when the function succeeds everywhere. -/
theorem length_filterMap_isSome {α β : Type} (f : α → Option β) :
    ∀ l : List α, (∀ a ∈ l, (f a).isSome) → (l.filterMap f).length = l.length
  | [], _ => rfl
  | a :: rest, hall => by
    cases hfa : f a with
    | none =>
      have := hall a (List.mem_cons_self a rest)
      rw [hfa] at this
      cases this
    | some b =>
      simp only [List.filterMap_cons, hfa, List.length_cons]
      rw [length_filterMap_isSome f rest (fun x hx => hall x (List.mem_cons_of_mem a hx))]

/-! ## Helper lemmas for the crop-hint post-processing claim -/

/-- Round-half-even of an exact integer value is that integer. -/
theorem rhEven_int {x : ℚ} {n : ℤ} (hx : x = (n : ℚ)) : rhEven x = n := by
  subst hx
  rw [rhEven]
  simp [Int.floor_intCast]

/-- pyRound5 fixes any rational with at most 5 decimal places. -/
theorem pyRound5_eq {x : ℚ} {n : ℤ} (h : x * 100000 = (n : ℚ)) : pyRound5 x = x := by
  rw [pyRound5, rhEven_int h, ← h]
  norm_num

/-- The overlap walk keeps one output element per input element plus the
carried head. -/
theorem resolveGo_length :
    ∀ (l : List ExtractedQuestion) (prev : ExtractedQuestion),
      (resolveGo prev l).length = l.length + 1
  | [], _ => rfl
  | cur :: rest, prev => by
    rw [resolveGo]
    split
    · split
      · simp [List.length_cons, resolveGo_length rest]
      · simp [List.length_cons, resolveGo_length rest]
    · simp [List.length_cons, resolveGo_length rest]

/-- Overlap resolution preserves the group's length. -/
theorem resolveOverlaps_length (l : List ExtractedQuestion) :
    (resolveOverlaps l).length = l.length := by
  cases l with
  | nil => rfl
  | cons q rest => rw [resolveOverlaps, resolveGo_length, List.length_cons]

/-- Every question falls in exactly one of the three column groups. -/
theorem columnKey_cases (q : ExtractedQuestion) :
    columnKey q = "full" ∨ columnKey q = "left" ∨ columnKey q = "right" := by
  rw [columnKey]
  split
  · exact Or.inl rfl
  · split
    · exact Or.inl rfl
    · split
      · exact Or.inr (Or.inl rfl)
      · exact Or.inr (Or.inr rfl)

/-- The three column filters partition the list. -/
theorem columnKey_partition_length :
    ∀ qs : List ExtractedQuestion,
      (qs.filter (fun q => columnKey q == "full")).length +
      (qs.filter (fun q => columnKey q == "left")).length +
      (qs.filter (fun q => columnKey q == "right")).length = qs.length
  | [] => rfl
  | q :: rest => by
    have ih := columnKey_partition_length rest
    have e1 : (("full" : String) == "left") = false := by decide
    have e2 : (("full" : String) == "right") = false := by decide
    have e3 : (("left" : String) == "full") = false := by decide
    have e4 : (("left" : String) == "right") = false := by decide
    have e5 : (("right" : String) == "full") = false := by decide
    have e6 : (("right" : String) == "left") = false := by decide
    rcases columnKey_cases q with h | h | h <;>
      simp [List.filter_cons, h, e1, e2, e3, e4, e5, e6] <;> omega

/-- Reindexing preserves the length. -/
theorem reindexFrom_length : ∀ (l : List ExtractedQuestion) (i : ℤ),
    (reindexFrom i l).length = l.length
  | [], _ => rfl
  | q :: rest, i => by simp [reindexFrom, reindexFrom_length rest]

/-- Reindexing assigns consecutive order indices starting at i. -/
theorem reindexFrom_order : ∀ (l : List ExtractedQuestion) (i : ℤ) (j : ℕ),
    j < l.length → ((reindexFrom i l).getD j default).order = i + j
  | q :: rest, i, 0, _ => by simp [reindexFrom]
  | q :: rest, i, j + 1, hj => by
    have ih := reindexFrom_order rest (i + 1) j (by simpa using hj)
    simp only [reindexFrom, List.getD_cons_succ]
    rw [ih]
    push_cast
    ring

/-! ## Helper lemmas for the pipeline dispatch claims -/

/-- A failing page anywhere in the loop list makes the whole loop fail. -/
theorem gfLoop_error (cfg : PipeCfg) (env : GeminiEnv) (st : String) :
    ∀ (pages : List ℕ) (p : ℕ) (e : String),
      p ∈ pages → gfPage cfg env st p = .error e →
      ∃ e', gfLoop cfg env st pages = .error e'
  | [], p, e, hmem, _ => absurd hmem (List.not_mem_nil p)
  | hd :: rest, p, e, hmem, herr => by
    cases hh : gfPage cfg env st hd with
    | error e2 => exact ⟨e2, by simp only [gfLoop, hh]⟩
    | ok r =>
      rcases List.mem_cons.mp hmem with rfl | hmem2
      · rw [hh] at herr; cases herr
      · obtain ⟨e', he'⟩ := gfLoop_error cfg env st rest p e hmem2 herr
        obtain ⟨qs, raw⟩ := r
        exact ⟨e', by simp only [gfLoop, hh, he']⟩

/-- A successful LLM refinement never returns an empty list. -/
theorem refineWithLlm_ne_nil {cfg : PipeCfg} {env : HybridEnv} {raw engine : String}
    {qs l : List ExtractedQuestion}
    (h : refineWithLlm cfg env raw engine qs = some l) : l ≠ [] := by
  simp only [refineWithLlm] at h
  split at h
  · cases h
  · split at h
    · cases h
    · cases h
    · split at h
      · cases h
      · split at h
        · cases h
        · rename_i scr itemsl hresp hne hrq
          injection h with h
          subst h
          intro hnil
          have hlen := List.length_insertionSort refineLe (refineItems cfg qs engine 1 itemsl)
          rw [hnil] at hlen
          simp only [List.length_nil] at hlen
          have : refineItems cfg qs engine 1 itemsl = [] := List.length_eq_zero.mp hlen.symm
          rw [this] at hrq
          exact hrq rfl

/-- hybridQs never collapses a non-empty chunk list. -/
theorem hybridQs_ne_nil (b : ℚ) (e s : String) (i : ℕ)
    (l : List (Option String × String)) (hl : l ≠ []) : hybridQs b e s i l ≠ [] := by
  cases l with
  | nil => exact absurd rfl hl
  | cons p rest =>
    obtain ⟨lbl, txt⟩ := p
    simp [hybridQs]

/-- The post-refinement selection keeps a non-empty question list. -/
theorem refineSelect_ne_nil (cfg : PipeCfg) (env : HybridEnv) (t e0 : String)
    (q0 : List ExtractedQuestion) (hq0 : q0 ≠ []) :
    (match refineWithLlm cfg env t e0 q0 with
      | some rq => (rq, e0 ++ "+llm")
      | none => (q0, e0)).1 ≠ [] := by
  cases hr : refineWithLlm cfg env t e0 q0 with
  | none => exact hq0
  | some rq => exact refineWithLlm_ne_nil hr

/-- The blank-split fallback always yields a non-empty chunk list. -/
theorem chunksFallback_ne_nil (S : List (Option String × String))
    (u : Option String × String) : (if S.isEmpty then [u] else S) ≠ [] := by
  split
  · exact List.cons_ne_nil _ _
  · rename_i hsp
    intro hnil
    rw [hnil] at hsp
    exact hsp rfl

/-- splitQuestions keeps the mock placeholder as one unlabeled chunk. -/
theorem splitQuestions_placeholderMock :
    splitQuestions placeholderMock = [(none, placeholderMock)] := by decide

/-! ## Remaining claim theorems -/

/-- C10: the region planner does not reject ratio values outside [0, 1]. In
_ranges_from_page_hints the four ratios are clamped into [0, 1] and hint
validity (bottom > top, right > left) is judged on the clamped values; a hint
such as topRatio -0.2 / bottomRatio 0.3 is a valid hint spanning [0, 0.3]
(planned from the gemini source), a hint whose clamped span collapses is
merely marked invalid (planned from the fallback fill), and only a missing or
out-of-range pageIndex (or a non-dict entry) rejects the plan; an
unconvertible topRatio/bottomRatio merely marks the hint invalid. In the flat
_ranges_from_hints tier the same clamping applies, with rejection of the
whole plan when the clamped span collapses or a ratio is unconvertible. -/
theorem crop_hint_clamping_spec :
    (∀ (np qi : ℕ) (hh : Hint) (p : ℤ) (t b : ℚ),
        hh.page = some p → 1 ≤ p → p ≤ (np : ℤ) →
        hh.top = some t → hh.bot = some b →
        ∃ ph : PHint, parsePageHint np qi (some hh) = some ph ∧
          ph.valid = decide (clamp01 t < clamp01 b) ∧
          ph.top = clamp01 t ∧ ph.bot = clamp01 b ∧ ph.page = p ∧ ph.qidx = qi) ∧
    (∀ (np qi : ℕ) (hh : Hint) (p : ℤ) (l r : ℚ),
        hh.page = some p → 1 ≤ p → p ≤ (np : ℤ) →
        hh.left = some l → hh.right = some r →
        ∃ ph : PHint, parsePageHint np qi (some hh) = some ph ∧
          ph.hasX = decide (clamp01 l < clamp01 r) ∧
          ph.left = clamp01 l ∧ ph.right = clamp01 r) ∧
    (∀ (np qi : ℕ) (hh : Hint) (p : ℤ),
        hh.page = some p → 1 ≤ p → p ≤ (np : ℤ) → hh.top = none →
        ∃ ph : PHint, parsePageHint np qi (some hh) = some ph ∧ ph.valid = false) ∧
    (∀ (np qi : ℕ) (hh : Hint), hh.page = none →
        parsePageHint np qi (some hh) = none) ∧
    (∀ (np qi : ℕ) (hh : Hint) (p : ℤ), hh.page = some p →
        p < 1 ∨ (np : ℤ) < p → parsePageHint np qi (some hh) = none) ∧
    rangesFromPageHints [1000] [1000] 1
        [some ⟨some 1, some (-(1/5)), some (3/10), none, none⟩] =
      some [((0 : ℤ), ⟨0, 300, 0, 1000, "gemini"⟩)] ∧
    rangesFromPageHints [1000] [1000] 1
        [some ⟨some 1, some (-(1/2)), some (-(1/5)), none, none⟩] =
      some [((0 : ℤ), ⟨0, 1000, 0, 1000, "fallback"⟩)] ∧
    rangesFromPageHints [1000] [1000] 1
        [some ⟨none, some (1/10), some (3/10), none, none⟩] = none ∧
    rangesFromPageHints [1000] [1000] 1
        [some ⟨some 2, some (1/10), some (3/10), none, none⟩] = none ∧
    rangesFromHints 1000 2
        [some ⟨some 1, some (-(1/5)), some (3/10), none, none⟩,
         some ⟨some 1, some (3/10), some (9/10), none, none⟩] =
      some [((0 : ℤ), (300 : ℤ)), (300, 1000)] ∧
    rangesFromHints 1000 1
        [some ⟨some 1, some (-(1/2)), some (-(1/5)), none, none⟩] = none ∧
    rangesFromHints 1000 1 [some ⟨some 1, none, some (3/10), none, none⟩] = none := by
  refine ⟨fun np qi hh p t b hpage h1 h2 ht hb =>
      parsePageHint_clamps np qi hh p t b hpage h1 h2 ht hb,
    fun np qi hh p l r hpage h1 h2 hl hr =>
      parsePageHint_clampsX np qi hh p l r hpage h1 h2 hl hr,
    fun np qi hh p hpage h1 h2 ht => parsePageHint_noTop np qi hh p hpage h1 h2 ht,
    fun np qi hh hpage => parsePageHint_noPage np qi hh hpage,
    fun np qi hh p hpage hbad => parsePageHint_badPage np qi hh p hpage hbad,
    ?_, ?_, ?_, ?_, ?_, ?_, ?_⟩
  · have hparsed : parsePageHintsGo ([(1000 : ℤ)]).length
        [some ⟨some 1, some (-(1/5)), some (3/10), none, none⟩] 0 1 =
        some [⟨0, 1, true, 0, 3/10, 0, 1, false⟩] := by
      norm_num [parsePageHintsGo, parsePageHint, clamp01]
    have hassign : colAssign [⟨0, 1, true, 0, 3/10, 0, 1, false⟩] = [(0, (0, 3/10))] := by
      norm_num [colAssign, reconGo, colOf, List.insertionSort, List.orderedInsert, hintLeTop]
    have hpix : toPixel 1000 1000 (0, 3/10) ⟨0, 1, true, 0, 3/10, 0, 1, false⟩ true =
        ⟨0, 300, 0, 1000, "gemini"⟩ := by
      norm_num [toPixel, pyTrunc, pyFloorDiv]
    have hassigned : pageAssignments [1000] [1000] [⟨0, 1, true, 0, 3/10, 0, 1, false⟩] =
        [(0, ⟨0, 300, 0, 1000, "gemini"⟩)] := by
      norm_num [pageAssignments, processPage, ratiosInit, hassign, fillGapsGo, hpix,
        List.range_succ]
    rw [rangesFromPageHints_some (by norm_num) (by norm_num) (by norm_num) (by norm_num)
      hparsed, hassigned]
    norm_num [collectPlanned, List.range_succ, List.range_zero, List.find?, List.all_cons,
      List.all_nil, List.filterMap_cons, List.filterMap_nil]
  · have hparsed : parsePageHintsGo ([(1000 : ℤ)]).length
        [some ⟨some 1, some (-(1/2)), some (-(1/5)), none, none⟩] 0 1 =
        some [⟨0, 1, false, 0, 0, 0, 1, false⟩] := by
      norm_num [parsePageHintsGo, parsePageHint, clamp01]
    have hassign : colAssign [⟨0, 1, false, 0, 0, 0, 1, false⟩] = [] := by
      norm_num [colAssign, reconGo, colOf, List.insertionSort, List.orderedInsert, hintLeTop]
    have hpix : toPixel 1000 1000 (0, 1) ⟨0, 1, false, 0, 0, 0, 1, false⟩ false =
        ⟨0, 1000, 0, 1000, "fallback"⟩ := by
      norm_num [toPixel, pyTrunc, pyFloorDiv]
    have hassigned : pageAssignments [1000] [1000] [⟨0, 1, false, 0, 0, 0, 1, false⟩] =
        [(0, ⟨0, 1000, 0, 1000, "fallback"⟩)] := by
      norm_num [pageAssignments, processPage, ratiosInit, hassign, fillGapsGo, fillRun, hpix,
        List.range_succ]
    rw [rangesFromPageHints_some (by norm_num) (by norm_num) (by norm_num) (by norm_num)
      hparsed, hassigned]
    norm_num [collectPlanned, List.range_succ, List.range_zero, List.find?, List.all_cons,
      List.all_nil, List.filterMap_cons, List.filterMap_nil]
  · norm_num [rangesFromPageHints, parsePageHintsGo, parsePageHint]
  · norm_num [rangesFromPageHints, parsePageHintsGo, parsePageHint]
  · norm_num [rangesFromHints, rangesFromHintsGo, clamp01, pyTrunc]
  · norm_num [rangesFromHints, rangesFromHintsGo, clamp01]
  · norm_num [rangesFromHints, rangesFromHintsGo]

/-- C10 witness: the out-of-range hint topRatio -0.2 / bottomRatio 0.3 parses
into a valid hint clamped to the span [0, 0.3]. -/
theorem crop_hint_clamping_spec_witness :
    ∃ ph : PHint,
      parsePageHint 1 0 (some ⟨some 1, some (-(1/5)), some (3/10), none, none⟩) = some ph ∧
      ph.valid = decide (clamp01 (-(1/5)) < clamp01 (3/10)) ∧
      ph.top = clamp01 (-(1/5)) ∧ ph.bot = clamp01 (3/10) ∧ ph.page = 1 ∧ ph.qidx = 0 :=
  crop_hint_clamping_spec.1 1 0 ⟨some 1, some (-(1/5)), some (3/10), none, none⟩ 1
    (-(1/5)) (3/10) rfl (by norm_num) (by norm_num) rfl rfl

/-- C1 counterexample: the claimed invariants fail on inputs that satisfy all
of the claim's hypotheses (every entry a dict with an in-range integer
pageIndex and clamped bottomRatio > topRatio). First instance: a single hint
spanning [0.99, 1] of a 1000-pixel page yields the region y = [966, 1000],
whose height 34 is below the claimed 60-pixel minimum (the 60-pixel expansion
is clipped at the page bottom). Second instance: three hints on one page,
two in the left column (x = [0, 500]) and one in the right; the second left
hint loses the column reconciliation and is re-filled below the column, so
the planned left-column regions y = [100, 900] and y = [800, 1000] overlap
vertically on the same page and column. -/
theorem region_planner_invariants_cex :
    (clamp01 (99/100) < clamp01 1 ∧
      rangesFromPageHints [1000] [1000] 1
          [some ⟨some 1, some (99/100), some 1, none, none⟩] =
        some [((0 : ℤ), ⟨966, 1000, 0, 1000, "gemini"⟩)] ∧
      (1000 : ℤ) - 966 < 60) ∧
    (clamp01 (1/10) < clamp01 (9/10) ∧ clamp01 0 < clamp01 (4/5) ∧
      clamp01 (1/5) < clamp01 (1/2) ∧
      rangesFromPageHints [1000] [1000] 3
          [some ⟨some 1, some (1/10), some (9/10), some 0, some (1/2)⟩,
           some ⟨some 1, some 0, some (4/5), some (1/2), some 1⟩,
           some ⟨some 1, some (1/5), some (1/2), some 0, some (1/2)⟩] =
        some [((0 : ℤ), ⟨100, 900, 0, 500, "gemini"⟩),
              (0, ⟨0, 800, 500, 1000, "gemini"⟩),
              (0, ⟨800, 1000, 0, 500, "fallback"⟩)] ∧
      ((800 : ℤ) < 900 ∧ (100 : ℤ) < 1000)) := by
  refine ⟨⟨by norm_num [clamp01], ?_, by norm_num⟩,
    ⟨by norm_num [clamp01], by norm_num [clamp01], by norm_num [clamp01], ?_,
      by norm_num, by norm_num⟩⟩
  · have hparsed : parsePageHintsGo ([(1000 : ℤ)]).length
        [some ⟨some 1, some (99/100), some 1, none, none⟩] 0 1 =
        some [⟨0, 1, true, 99/100, 1, 0, 1, false⟩] := by
      norm_num [parsePageHintsGo, parsePageHint, clamp01]
    have hassign : colAssign [⟨0, 1, true, 99/100, 1, 0, 1, false⟩] =
        [(0, (99/100, 1))] := by
      norm_num [colAssign, reconGo, colOf, List.insertionSort, List.orderedInsert, hintLeTop]
    have hpix : toPixel 1000 1000 (99/100, 1) ⟨0, 1, true, 99/100, 1, 0, 1, false⟩ true =
        ⟨966, 1000, 0, 1000, "gemini"⟩ := by
      norm_num [toPixel, pyTrunc, pyFloorDiv, Int.fdiv]
    have hassigned : pageAssignments [1000] [1000] [⟨0, 1, true, 99/100, 1, 0, 1, false⟩] =
        [(0, ⟨966, 1000, 0, 1000, "gemini"⟩)] := by
      norm_num [pageAssignments, processPage, ratiosInit, hassign, fillGapsGo, hpix,
        List.range_succ]
    rw [rangesFromPageHints_some (by norm_num) (by norm_num) (by norm_num) (by norm_num)
      hparsed, hassigned]
    norm_num [collectPlanned, List.range_succ, List.range_zero, List.find?, List.all_cons,
      List.all_nil, List.filterMap_cons, List.filterMap_nil]
  · have hparsed : parsePageHintsGo ([(1000 : ℤ)]).length
        [some ⟨some 1, some (1/10), some (9/10), some 0, some (1/2)⟩,
         some ⟨some 1, some 0, some (4/5), some (1/2), some 1⟩,
         some ⟨some 1, some (1/5), some (1/2), some 0, some (1/2)⟩] 0 3 =
        some [⟨0, 1, true, 1/10, 9/10, 0, 1/2, true⟩,
              ⟨1, 1, true, 0, 4/5, 1/2, 1, true⟩,
              ⟨2, 1, true, 1/5, 1/2, 0, 1/2, true⟩] := by
      norm_num [parsePageHintsGo, parsePageHint, clamp01]
    have hassign : colAssign
        [⟨0, 1, true, 1/10, 9/10, 0, 1/2, true⟩,
         ⟨1, 1, true, 0, 4/5, 1/2, 1, true⟩,
         ⟨2, 1, true, 1/5, 1/2, 0, 1/2, true⟩] =
        [(0, (1/10, 9/10)), (1, (0, 4/5))] := by
      norm_num [colAssign, reconGo, colOf, List.insertionSort, List.orderedInsert, hintLeTop,
        List.enum, List.enumFrom, List.filter_cons, List.filter_nil, beq_iff_eq]
    have hpix0 : toPixel 1000 1000 (1/10, 9/10) ⟨0, 1, true, 1/10, 9/10, 0, 1/2, true⟩ true =
        ⟨100, 900, 0, 500, "gemini"⟩ := by
      norm_num [toPixel, pyTrunc, pyFloorDiv]
    have hpix1 : toPixel 1000 1000 (0, 4/5) ⟨1, 1, true, 0, 4/5, 1/2, 1, true⟩ true =
        ⟨0, 800, 500, 1000, "gemini"⟩ := by
      norm_num [toPixel, pyTrunc, pyFloorDiv]
    have hpix2 : toPixel 1000 1000 (4/5, 1) ⟨2, 1, true, 1/5, 1/2, 0, 1/2, true⟩ false =
        ⟨800, 1000, 0, 500, "fallback"⟩ := by
      norm_num [toPixel, pyTrunc, pyFloorDiv]
    have hassigned : pageAssignments [1000] [1000]
        [⟨0, 1, true, 1/10, 9/10, 0, 1/2, true⟩,
         ⟨1, 1, true, 0, 4/5, 1/2, 1, true⟩,
         ⟨2, 1, true, 1/5, 1/2, 0, 1/2, true⟩] =
        [(0, ⟨100, 900, 0, 500, "gemini"⟩),
         (1, ⟨0, 800, 500, 1000, "gemini"⟩),
         (2, ⟨800, 1000, 0, 500, "fallback"⟩)] := by
      norm_num [pageAssignments, processPage, ratiosInit, hassign, fillGapsGo, fillRun,
        hpix0, hpix1, hpix2, List.range_succ]
    rw [rangesFromPageHints_some (by norm_num) (by norm_num) (by norm_num) (by norm_num)
      hparsed, hassigned]
    norm_num [collectPlanned, List.range_succ, List.range_zero, List.find?, List.all_cons,
      List.all_nil, List.filterMap_cons, List.filterMap_nil]
    decide

/-- C1 (amended): under the claim's hypotheses (every entry a dict with an
in-range integer pageIndex and clamped bottomRatio > topRatio, hint list at
least as long as the positive question count, at least one page) the top
planning tier succeeds with exactly questionCount regions, and every region
satisfies y2 > y1 and (height >= 60 pixels, or the region is clipped at the
bottom of its page: y2 = max 1 pageHeight). The original claim's
unconditional 60-pixel minimum and its same-page/same-column non-overlap
guarantee are both false (see the counterexample). -/
theorem region_planner_invariants_fixed
    (pageHeights pageWidths : List ℤ) (qc : ℕ) (hints : List (Option Hint))
    (hqc : 0 < qc) (hne : pageHeights ≠ []) (hlen : qc ≤ hints.length)
    (hhints : ∀ k, k < qc → ∃ hh p t b, hints.getD k none = some hh ∧
      hh.page = some p ∧ 1 ≤ p ∧ p ≤ (pageHeights.length : ℤ) ∧
      hh.top = some t ∧ hh.bot = some b ∧ clamp01 t < clamp01 b) :
    ∃ rs, rangesFromPageHints pageHeights pageWidths qc hints = some rs ∧
      rs.length = qc ∧
      ∀ pr ∈ rs, pr.2.y1 < pr.2.y2 ∧
        (60 ≤ pr.2.y2 - pr.2.y1 ∨ pr.2.y2 = max 1 (pageHeights.getD pr.1.toNat 0)) := by
  obtain ⟨parsed, hparsed⟩ := parsePageHintsGo_total qc 0 pageHeights.length hints
    (fun k hk => by
      obtain ⟨hh, p, t, b, e0, e1, e2, e3, _⟩ := hhints k hk
      exact ⟨hh, p, by simpa using e0, e1, e2, e3⟩)
  obtain ⟨hplen, hpidx⟩ := parsePageHintsGo_ok qc 0 pageHeights.length hints parsed hparsed
  have hidx : ∀ k, k < parsed.length → (parsed.getD k default).qidx = k := by
    intro k hk
    simpa using (hpidx k (by omega)).1
  have hcov : ∀ q, q < qc → ∃ r, (q, r) ∈ pageAssignments pageHeights pageWidths parsed := by
    intro q hq
    exact pageAssignments_covers (by omega) (hidx q (by omega))
      (hpidx q hq).2.1 (hpidx q hq).2.2
  have hfind : ∀ q, q < qc →
      ((pageAssignments pageHeights pageWidths parsed).find? (fun x => x.1 == q)).isSome := by
    intro q hq
    obtain ⟨r, hr⟩ := hcov q hq
    exact List.find?_isSome.mpr ⟨(q, r), hr, by simp⟩
  rw [rangesFromPageHints_some (by omega)
    (by
      cases pageHeights with
      | nil => exact absurd rfl hne
      | cons a l => rfl)
    (by
      cases hints with
      | nil => simp at hlen; omega
      | cons a l => rfl)
    (by omega) hparsed]
  rw [collectPlanned, if_pos (by
    rw [List.all_eq_true]
    intro q hq
    exact hfind q (List.mem_range.mp hq))]
  refine ⟨_, rfl, ?_, ?_⟩
  · rw [length_filterMap_isSome]
    · exact List.length_range qc
    · intro q hq
      have hq' := hfind q (List.mem_range.mp hq)
      cases hfo : (pageAssignments pageHeights pageWidths parsed).find? (fun x => x.1 == q) with
      | none => rw [hfo] at hq'; cases hq'
      | some v => rfl
  · intro pr hpr
    rw [List.mem_filterMap] at hpr
    obtain ⟨q, hq, hfq⟩ := hpr
    cases hfo : (pageAssignments pageHeights pageWidths parsed).find? (fun x => x.1 == q) with
    | none => rw [hfo] at hfq; cases hfq
    | some fr =>
      rw [hfo] at hfq
      simp only [Option.map_some'] at hfq
      injection hfq with hfq
      subst hfq
      have hmemfr := List.mem_of_find?_eq_some hfo
      have hkey : fr.1 = q := by simpa using List.find?_some hfo
      obtain ⟨p, hp, it, hitmem, hitpage, hfr1, tb, gem, hfr2⟩ := pageAssignments_mem hmemfr
      have hiteq : it = parsed.getD q default := by
        have h3 := mem_of_qidx_indexed hidx hitmem
        rw [← hfr1, hkey] at h3
        exact h3
      have hpage_eq : (parsed.getD q default).page = (p : ℤ) + 1 := by
        rw [← hiteq]; exact hitpage
      have htoNat : ((parsed.getD q default).page - 1).toNat = p := by omega
      have hinv := toPixel_invariant (max 1 (pageHeights.getD p 0))
        (max 1 ((if pageWidths.isEmpty then List.replicate pageHeights.length (0 : ℤ)
                 else pageWidths).getD p 0)) tb it gem (le_max_left _ _)
      rw [← hfr2] at hinv
      refine ⟨hinv.1, ?_⟩
      rcases hinv.2 with h | h
      · exact Or.inl h
      · right
        rw [h]
        simp only [htoNat]

/-- C1 witness for the amended theorem: the bottom-of-page hint instance,
whose single region is clipped at the page bottom. -/
theorem region_planner_invariants_fixed_witness :
    ∃ rs, rangesFromPageHints [1000] [1000] 1
        [some ⟨some 1, some (99/100), some 1, none, none⟩] = some rs ∧
      rs.length = 1 ∧
      ∀ pr ∈ rs, pr.2.y1 < pr.2.y2 ∧
        (60 ≤ pr.2.y2 - pr.2.y1 ∨ pr.2.y2 = max 1 (([(1000 : ℤ)]).getD pr.1.toNat 0)) :=
  region_planner_invariants_fixed [1000] [1000] 1
    [some ⟨some 1, some (99/100), some 1, none, none⟩]
    (by norm_num) (by simp) (by norm_num)
    (fun k hk => by
      have hk0 : k = 0 := by omega
      subst hk0
      exact ⟨⟨some 1, some (99/100), some 1, none, none⟩, 1, 99/100, 1, rfl, rfl,
        by norm_num, by norm_num, rfl, rfl, by norm_num [clamp01]⟩)

/-- C2: crop-hint post-processing. A hint whose height is strictly between 0
and 0.05 is replaced by the 0.05-high window centred at its midpoint, clamped
into [0, 1] and rounded to 5 decimals; the concrete hint [0.50, 0.52] expands
to [0.485, 0.535], a span of exactly 0.05; the concrete overlapping
full-column hints [0, 0.6] and [0.4, 0.9] resolve at the midpoint 0.5, so the
first's bottomRatio (1/2) does not exceed the second's topRatio (1/2), and
order_index is reassigned 1, 2; in general the output is the full-width
group, then the left-column group, then the right-column group, each sorted
ascending by topRatio before overlap resolution, with length preserved and
order_index reassigned contiguously 1..N. -/
theorem crop_hint_postprocess_spec :
    (∀ (q : ExtractedQuestion) (h : CropHint),
        q.meta.cropHint = some h →
        0 < h.bot - h.top → h.bot - h.top < 1/20 →
        ∃ h' : CropHint, (expandHint q).meta.cropHint = some h' ∧
          h'.top = pyRound5 (max 0 ((h.top + h.bot)/2 - 1/40)) ∧
          h'.bot = pyRound5 (min 1 ((h.top + h.bot)/2 + 1/40)) ∧
          h'.page = h.page ∧ h'.lr = h.lr) ∧
    ((expandHint ⟨7, none, "", 0,
        ⟨"", "", "", "", "", "", "", "", 0, false, "", some ⟨1, 1/2, 13/25, none⟩⟩,
        ⟨"", []⟩⟩).meta.cropHint = some ⟨1, 97/200, 107/200, none⟩ ∧
      (1 : ℚ)/20 ≤ 107/200 - 97/200) ∧
    postprocessCropHints
      [⟨9, none, "", 0, ⟨"", "", "", "", "", "", "", "", 0, false, "",
          some ⟨1, 0, 3/5, none⟩⟩, ⟨"", []⟩⟩,
       ⟨5, none, "", 0, ⟨"", "", "", "", "", "", "", "", 0, false, "",
          some ⟨1, 2/5, 9/10, none⟩⟩, ⟨"", []⟩⟩] =
      [⟨1, none, "", 0, ⟨"", "", "", "", "", "", "", "", 0, false, "",
          some ⟨1, 0, 1/2, none⟩⟩, ⟨"", []⟩⟩,
       ⟨2, none, "", 0, ⟨"", "", "", "", "", "", "", "", 0, false, "",
          some ⟨1, 1/2, 9/10, none⟩⟩, ⟨"", []⟩⟩] ∧
    (∀ qs : List ExtractedQuestion, qs ≠ [] →
      postprocessCropHints qs =
        reindexFrom 1
          (resolveOverlaps (sortTop ((qs.map expandHint).filter
              (fun q => columnKey q == "full"))) ++
           resolveOverlaps (sortTop ((qs.map expandHint).filter
              (fun q => columnKey q == "left"))) ++
           resolveOverlaps (sortTop ((qs.map expandHint).filter
              (fun q => columnKey q == "right"))))) ∧
    (∀ g : List ExtractedQuestion, List.Sorted topLe (sortTop g)) ∧
    (∀ qs : List ExtractedQuestion, (postprocessCropHints qs).length = qs.length) ∧
    (∀ (qs : List ExtractedQuestion) (j : ℕ), j < (postprocessCropHints qs).length →
      ((postprocessCropHints qs).getD j default).order = 1 + j) := by
  have hlen : ∀ qs : List ExtractedQuestion, (postprocessCropHints qs).length = qs.length := by
    intro qs
    by_cases hq : qs = []
    · subst hq; rfl
    · rw [postprocessCropHints, if_neg (by
        intro hemp
        rw [List.isEmpty_iff] at hemp
        exact hq hemp)]
      rw [reindexFrom_length]
      simp only [List.length_append, resolveOverlaps_length]
      simp only [show ∀ g : List ExtractedQuestion, (sortTop g).length = g.length from
        fun g => List.length_insertionSort topLe g]
      rw [columnKey_partition_length, List.length_map]
  refine ⟨?_, ⟨?_, by norm_num⟩, ?_, ?_, fun g => List.sorted_insertionSort topLe g,
    hlen, ?_⟩
  · intro q h hq h1 h2
    simp only [expandHint, hq]
    rw [if_pos ⟨h1, h2⟩]
    exact ⟨_, rfl, rfl, rfl, rfl, rfl⟩
  · have h1 : pyRound5 ((97 : ℚ)/200) = 97/200 :=
      pyRound5_eq (n := 48500) (by norm_num)
    have h2 : pyRound5 ((107 : ℚ)/200) = 107/200 :=
      pyRound5_eq (n := 53500) (by norm_num)
    norm_num [expandHint, h1, h2]
  · have hm : pyRound5 ((1 : ℚ)/2) = 1/2 :=
      pyRound5_eq (n := 50000) (by norm_num)
    norm_num [postprocessCropHints, expandHint, columnKey, sortTop, List.insertionSort,
      List.orderedInsert, topLe, topKey, resolveOverlaps, resolveGo, reindexFrom, hm,
      List.filter_cons, List.filter_nil]
  · intro qs hq
    rw [postprocessCropHints, if_neg (by
      intro hemp
      rw [List.isEmpty_iff] at hemp
      exact hq hemp)]
  · intro qs j hj
    by_cases hq : qs = []
    · subst hq
      simp only [postprocessCropHints] at hj
      exact absurd hj (by simp)
    · rw [postprocessCropHints, if_neg (by
        intro hemp
        rw [List.isEmpty_iff] at hemp
        exact hq hemp)] at hj ⊢
      rw [reindexFrom_order _ 1 j (by
        rw [reindexFrom_length] at hj
        exact hj)]

/-- C2 witness: the expansion characterization applied to the hint
[0.50, 0.52]. -/
theorem crop_hint_postprocess_spec_witness :
    ∃ h' : CropHint,
      (expandHint ⟨7, none, "", 0,
        ⟨"", "", "", "", "", "", "", "", 0, false, "", some ⟨1, 1/2, 13/25, none⟩⟩,
        ⟨"", []⟩⟩).meta.cropHint = some h' ∧
      h'.top = pyRound5 (max 0 (((1 : ℚ)/2 + 13/25)/2 - 1/40)) ∧
      h'.bot = pyRound5 (min 1 (((1 : ℚ)/2 + 13/25)/2 + 1/40)) ∧
      h'.page = 1 ∧ h'.lr = none :=
  crop_hint_postprocess_spec.1 _ ⟨1, 1/2, 13/25, none⟩ rfl (by norm_num) (by norm_num)

/-- C3: gemini_full error semantics. In gemini_full mode extract raises (an
Except.error) whenever no multimodal LLM is available, the media type is
unsupported, no PDF page can be rendered, the image payload cannot be
prepared, or any page's extraction fails (in particular when both the
structured call and the raw-text fallback fail on a page, whose combined
message the geminiMedia conjunct exhibits); any geminiFull error propagates
unchanged, and the gemini_full branch never consults the hybrid path's
environment, so it never degrades to the hybrid result. -/
theorem gemini_full_error_spec :
    (∀ (cfg : PipeCfg) (genv : GeminiEnv) (henv henv' : HybridEnv) (ct fn : Option String),
        cfg.mode = "gemini_full" →
        pipelineExtract cfg genv henv ct fn = pipelineExtract cfg genv henv' ct fn) ∧
    (∀ (cfg : PipeCfg) (genv : GeminiEnv) (henv : HybridEnv) (ct fn : Option String)
        (e : String), cfg.mode = "gemini_full" →
        geminiFull cfg genv ct fn = .error e →
        pipelineExtract cfg genv henv ct fn = .error e) ∧
    (∀ (cfg : PipeCfg) (genv : GeminiEnv) (henv : HybridEnv) (ct fn : Option String),
        cfg.mode = "gemini_full" → canUseMultimodalLLM cfg = false →
        pipelineExtract cfg genv henv ct fn =
          .error "gemini_full mode requires a multimodal LLM backend.") ∧
    (∀ (cfg : PipeCfg) (genv : GeminiEnv) (henv : HybridEnv) (ct fn : Option String),
        cfg.mode = "gemini_full" → canUseMultimodalLLM cfg = true →
        mediaSourceType ct fn = "binary" →
        pipelineExtract cfg genv henv ct fn =
          .error "gemini_extract_failed: unsupported media type for gemini_full.") ∧
    (∀ (cfg : PipeCfg) (genv : GeminiEnv) (henv : HybridEnv) (ct fn : Option String),
        cfg.mode = "gemini_full" → canUseMultimodalLLM cfg = true →
        mediaSourceType ct fn = "pdf" → genv.pageCount = 0 →
        pipelineExtract cfg genv henv ct fn =
          .error "gemini_page_extract_failed(page=0): could not render PDF pages.") ∧
    (∀ (cfg : PipeCfg) (genv : GeminiEnv) (henv : HybridEnv) (ct fn : Option String),
        cfg.mode = "gemini_full" → canUseMultimodalLLM cfg = true →
        mediaSourceType ct fn = "image" → genv.imagePrepared = false →
        pipelineExtract cfg genv henv ct fn =
          .error "gemini_extract_failed(page=1): could not prepare image payload.") ∧
    (∀ (cfg : PipeCfg) (genv : GeminiEnv) (henv : HybridEnv) (ct fn : Option String)
        (p : ℕ) (e : String),
        cfg.mode = "gemini_full" → canUseMultimodalLLM cfg = true →
        mediaSourceType ct fn = "pdf" →
        p ∈ (List.range genv.pageCount).map (· + 1) →
        gfPage cfg genv "pdf" p = .error e →
        ∃ e', pipelineExtract cfg genv henv ct fn = .error e') ∧
    (∀ (cfg : PipeCfg) (env : GeminiEnv) (s : String) (page : ℕ) (e re : String),
        cfg.llmPresent = true →
        env.structuredData page = .error e → env.rawData page = .error re →
        geminiMedia cfg env s page = .error ("structured extraction failed: " ++ e ++
          "; raw-text fallback failed: " ++ ("Gemini raw-text fallback failed: " ++ re))) := by
  refine ⟨?_, ?_, ?_, ?_, ?_, ?_, ?_, ?_⟩
  · intro cfg genv henv henv' ct fn hmode
    rw [pipelineExtract, pipelineExtract, if_pos (by simp [hmode]), if_pos (by simp [hmode])]
  · intro cfg genv henv ct fn e hmode herr
    rw [pipelineExtract, if_pos (by simp [hmode]), herr]
  · intro cfg genv henv ct fn hmode hcan
    rw [pipelineExtract, if_pos (by simp [hmode]), geminiFull, if_pos (by simp [hcan])]
  · intro cfg genv henv ct fn hmode hcan hst
    rw [pipelineExtract, if_pos (by simp [hmode])]
    simp [geminiFull, hst, hcan]
  · intro cfg genv henv ct fn hmode hcan hst hpc
    rw [pipelineExtract, if_pos (by simp [hmode])]
    simp [geminiFull, hst, hcan, hpc]
  · intro cfg genv henv ct fn hmode hcan hst hprep
    rw [pipelineExtract, if_pos (by simp [hmode])]
    simp [geminiFull, hst, hcan, hprep]
  · intro cfg genv henv ct fn p e hmode hcan hst hp herr
    rw [pipelineExtract, if_pos (by simp [hmode])]
    by_cases hpc : genv.pageCount = 0
    · exact ⟨"gemini_page_extract_failed(page=0): could not render PDF pages.",
        by simp [geminiFull, hst, hcan, hpc]⟩
    · obtain ⟨e', he'⟩ := gfLoop_error cfg genv "pdf" _ p e hp herr
      refine ⟨e', ?_⟩
      rw [geminiFull, if_neg (by simp [hcan])]
      simp [hst, hpc, he']
  · intro cfg env s page e re hllm hsd hrd
    simp [geminiMedia, geminiRawText, hllm, hsd, hrd]

/-- C3 witness: a configuration without any usable multimodal LLM in
gemini_full mode yields the required-backend error. -/
theorem gemini_full_error_spec_witness :
    pipelineExtract ⟨false, false, "mock", false, "", "", "gemini_full"⟩
      ⟨fun _ => .error "s", fun _ => .error "r", 0, false, fun _ => .ok ()⟩
      ⟨none, none, none, false, ⟨"", none⟩, .error ()⟩ none none =
      .error "gemini_full mode requires a multimodal LLM backend." :=
  gemini_full_error_spec.2.2.1 ⟨false, false, "mock", false, "", "", "gemini_full"⟩
    ⟨fun _ => .error "s", fun _ => .error "r", 0, false, fun _ => .ok ()⟩
    ⟨none, none, none, false, ⟨"", none⟩, .error ()⟩ none none rfl (by decide)

/-- C4: the hybrid branch never fails. Any mode other than gemini_full
returns Except.ok of the hybrid result (no exception), the hybrid result's
question list is never empty, and under total engine failure (no PDF or
image extraction, no usable UTF-8 decode, mock provider, and the OCR
fallback port returning the [mock]-prefixed marker) the result is a single
question whose text is the user-visible mock placeholder with engine
ocr_fallback. -/
theorem hybrid_never_fail_spec :
    (∀ (cfg : PipeCfg) (genv : GeminiEnv) (henv : HybridEnv) (ct fn : Option String),
        cfg.mode ≠ "gemini_full" →
        pipelineExtract cfg genv henv ct fn = .ok (extractHybrid cfg henv ct fn)) ∧
    (∀ (cfg : PipeCfg) (env : HybridEnv) (ct fn : Option String),
        (extractHybrid cfg env ct fn).questions ≠ []) ∧
    (∀ (cfg : PipeCfg) (env : HybridEnv) (ct fn : Option String),
        cfg.provider = "mock" →
        env.pdfResult = none → env.imageResult = none →
        (env.payloadNonempty = false ∨ env.utf8Decoded = none ∨
          ∃ d, env.utf8Decoded = some d ∧ (normalizeText d).data = []) →
        pyStartsWith (normalizeText env.fallbackOut.text) "[mock]" = true →
        ∃ q : ExtractedQuestion, (extractHybrid cfg env ct fn).questions = [q] ∧
          q.text = placeholderMock ∧ (extractHybrid cfg env ct fn).engine = "ocr_fallback") := by
  refine ⟨?_, ?_, ?_⟩
  · intro cfg genv henv ct fn hmode
    rw [pipelineExtract, if_neg (by simp [hmode])]
  · intro cfg env ct fn
    simp only [extractHybrid]
    apply refineSelect_ne_nil
    apply hybridQs_ne_nil
    apply chunksFallback_ne_nil
  · intro cfg env ct fn hprov hpdf himg hdec hmock
    have hcan : canUseLLM cfg = false := by
      simp [canUseLLM, hprov]
    have hrefine : ∀ (t e0 : String) (q0 : List ExtractedQuestion),
        refineWithLlm cfg env t e0 q0 = none := by
      intro t e0 q0
      rw [refineWithLlm, if_pos]
      rw [hcan]
      rfl
    have hfb : extractWithFallback env =
        (placeholderMock, (match env.fallbackOut.conf with
          | none => (1 : ℚ)/2
          | some c => if c = 0 then 1/2 else c), "ocr_fallback") := by
      simp only [extractWithFallback, hmock, if_true]
      rw [if_neg (by decide)]
    simp only [extractHybrid, hpdf, himg]
    rcases hdec with hpay | hutf | ⟨d, hutf, hde⟩
    · rcases Bool.eq_false_or_eq_true (pyStartsWith (strLower (ct.getD "")) "application/pdf" ||
          pyEndsWith (strLower (fn.getD "")) ".pdf") with h1 | h1 <;>
      rcases Bool.eq_false_or_eq_true (pyStartsWith (strLower (ct.getD "")) "image/" ||
          pyEndsWith (strLower (fn.getD "")) ".png" || pyEndsWith (strLower (fn.getD "")) ".jpg" ||
          pyEndsWith (strLower (fn.getD "")) ".jpeg") with h2 | h2 <;>
      simp [h1, h2, hpay, hfb, splitQuestions_placeholderMock, hybridQs, hrefine, pyOrStr]
    · rcases Bool.eq_false_or_eq_true (pyStartsWith (strLower (ct.getD "")) "application/pdf" ||
          pyEndsWith (strLower (fn.getD "")) ".pdf") with h1 | h1 <;>
      rcases Bool.eq_false_or_eq_true (pyStartsWith (strLower (ct.getD "")) "image/" ||
          pyEndsWith (strLower (fn.getD "")) ".png" || pyEndsWith (strLower (fn.getD "")) ".jpg" ||
          pyEndsWith (strLower (fn.getD "")) ".jpeg") with h2 | h2 <;>
      rcases Bool.eq_false_or_eq_true env.payloadNonempty with hp | hp <;>
      simp [h1, h2, hp, hutf, hfb, splitQuestions_placeholderMock, hybridQs, hrefine, pyOrStr]
    · have hde' : (normalizeText d).data.isEmpty = true := by rw [hde]; rfl
      rcases Bool.eq_false_or_eq_true (pyStartsWith (strLower (ct.getD "")) "application/pdf" ||
          pyEndsWith (strLower (fn.getD "")) ".pdf") with h1 | h1 <;>
      rcases Bool.eq_false_or_eq_true (pyStartsWith (strLower (ct.getD "")) "image/" ||
          pyEndsWith (strLower (fn.getD "")) ".png" || pyEndsWith (strLower (fn.getD "")) ".jpg" ||
          pyEndsWith (strLower (fn.getD "")) ".jpeg") with h2 | h2 <;>
      rcases Bool.eq_false_or_eq_true env.payloadNonempty with hp | hp <;>
      simp [h1, h2, hp, hutf, hde', hfb, splitQuestions_placeholderMock, hybridQs, hrefine,
        pyOrStr]

/-- C4 witness: the mock OCR environment (every real engine failing, the
fallback port returning the [mock] marker) yields the single mock
placeholder question. -/
theorem hybrid_never_fail_spec_witness :
    ∃ q : ExtractedQuestion,
      (extractHybrid ⟨true, true, "mock", false, "mock", "m", "hybrid"⟩
        ⟨none, none, none, false, ⟨"[mock] OCR text", some (91/100)⟩, .error ()⟩
        none none).questions = [q] ∧
      q.text = placeholderMock ∧
      (extractHybrid ⟨true, true, "mock", false, "mock", "m", "hybrid"⟩
        ⟨none, none, none, false, ⟨"[mock] OCR text", some (91/100)⟩, .error ()⟩
        none none).engine = "ocr_fallback" :=
  hybrid_never_fail_spec.2.2 ⟨true, true, "mock", false, "mock", "m", "hybrid"⟩
    ⟨none, none, none, false, ⟨"[mock] OCR text", some (91/100)⟩, .error ()⟩
    none none rfl rfl rfl (Or.inl rfl) (by decide)
